import Mathlib

/-!
# Conflict-Based Search: the constraint-tree solver of `CBSSolver.cpp`

A shallow embedding of `CBSSolver::solve`, `CBSSolver::safeSolve` and their
helpers (`computeCost`, `detectCollisions`, `detectCollision`, `getLocation`,
`resolveCollision`, `CTNodeComparator`), followed by theorems about them.

Conventions of the embedding.

* `std::vector<T>` is `List T`; an index of type `int` or `size_t` that the
  source only ever uses as a non-negative position is a `Nat`.
* The low-level solver (`AStar`, declared in a header that is not part of the
  sources at hand) is a parameter `ll : LowLevel`: `ll i cs = some p` when
  `lowLevelSolver.solve(i, cs, out)` returns `true` and leaves `p` in `out`,
  and `none` when it returns `false`.
* The two `while (!pq.empty())` loops need not terminate, so they take a fuel
  argument counting loop iterations; `none` means that the fuel ran out.
* Every run carries a trace of `Event`s, the record of what the run did, in
  order.  The trace is ghost state: no decision of the solver reads it.
-/

namespace CBS

/-! ## Data model -/

/-- Modelled from the spec: `Point2` is declared in `SolverUtils.hpp`, which is
not among the sources.  A grid cell is an integer coordinate pair `(x, y)` and
equality is exact integer equality. -/
structure Point2 where
  x : Int
  y : Int
deriving DecidableEq

instance : Inhabited Point2 := ⟨⟨0, 0⟩⟩

/-- Modelled from the spec: `Constraint` is declared in `SolverUtils.hpp`, which
is not among the sources.  The field order is the one of the aggregate
initialisers in `resolveCollision`: `{agentNum, t, isVertexConstraint,
location}`; `location` is a pair of cells (the source reads
`c.location.first`). -/
structure Constraint where
  agentNum : Nat
  t : Nat
  isVertexConstraint : Bool
  location : Point2 × Point2
deriving DecidableEq

/-- Modelled from the spec: `Collision` is declared in `SolverUtils.hpp`, which
is not among the sources: `{agent1, agent2, t, isVertexCollision, location}`,
with `location` a pair of cells as for `Constraint`. -/
structure Collision where
  agent1 : Nat
  agent2 : Nat
  t : Nat
  isVertexCollision : Bool
  location : Point2 × Point2
deriving DecidableEq

/-- Modelled from the spec: `createVertexCollision` is defined in
`SolverUtils.hpp`, which is not among the sources.  A vertex collision records
the two agents, the time and the shared cell; the cell is stored as the first
component of `location` (and repeated in the second, which no vertex rule
reads). -/
def createVertexCollision (agent1 agent2 t : Nat) (loc : Point2) : Collision :=
  { agent1 := agent1, agent2 := agent2, t := t, isVertexCollision := true,
    location := (loc, loc) }

/-- Modelled from the spec: `createEdgeCollision` is defined in
`SolverUtils.hpp`, which is not among the sources.  An edge collision records
the two agents, the time and the two cells it is called with, in the order in
which they are passed. -/
def createEdgeCollision (agent1 agent2 t : Nat) (loc1 loc2 : Point2) : Collision :=
  { agent1 := agent1, agent2 := agent2, t := t, isVertexCollision := false,
    location := (loc1, loc2) }

/-- The fields of `MAPFInstance` (declared in `MAPFInstance.hpp`) that the
sources read: `rows`, `cols`, `map`, `numAgents`, `startLocs`, `goalLocs`. -/
structure MAPFInstance where
  rows : Nat
  cols : Nat
  map : List (List Bool)
  numAgents : Nat
  startLocs : List Point2
  goalLocs : List Point2

/-- Embeds `CBSSolver::CTNode`.  The `float` field `cost` only ever holds `0` or
the value of `computeCost`, a sum of path lengths (exact in `float` below
`2^24`); it is a `Nat` here. -/
structure CTNode where
  cost : Nat
  paths : List (List Point2)
  collisionList : List Collision
  constraintList : List Constraint
  id : Nat
deriving DecidableEq

/-- The low-level solver `AStar::solve(agent, constraintList, outPath)` of one
instance: `some path` on success, `none` on failure. -/
abbrev LowLevel := Nat → List Constraint → Option (List Point2)

/-- Embeds `CBSSolver::NoSolutionException`. -/
inductive NoSolutionException where
  | mk
deriving DecidableEq

/-! ## Helpers of the solver -/

/-- Embeds `CBSSolver::computeCost`: the sum of the path sizes. -/
def computeCost (paths : List (List Point2)) : Nat :=
  paths.foldl (fun result p => result + p.length) 0

/-- Embeds `CBSSolver::getLocation`: `path[t]`, or the last cell when `t` is at
or past the end.  On an empty path the source reads out of bounds; the embedding
returns the default cell there. -/
def getLocation (path : List Point2) (t : Nat) : Point2 :=
  if t ≥ path.length then path.getD (path.length - 1) default
  else path.getD t default

/-- One iteration of the loop of `CBSSolver::detectCollision`, at time `t`:
the vertex test first, the edge test second. -/
def detectCollisionAt (agent1 agent2 : Nat) (pathA pathB : List Point2) (t : Nat) :
    Option Collision :=
  if getLocation pathA t = getLocation pathB t then
    some (createVertexCollision agent1 agent2 t (getLocation pathA t))
  else if getLocation pathA t = getLocation pathB (t + 1)
      ∧ getLocation pathA (t + 1) = getLocation pathB t then
    some (createEdgeCollision agent1 agent2 (t + 1) (getLocation pathA t)
      (getLocation pathA (t + 1)))
  else none

/-- Embeds `CBSSolver::detectCollision`: the first `t < max(|pathA|, |pathB|)` at
which an iteration returns, with the collision written to `col`; `none` for
`return false`. -/
def detectCollision (agent1 agent2 : Nat) (pathA pathB : List Point2) : Option Collision :=
  (List.range (max pathA.length pathB.length)).findSome?
    (detectCollisionAt agent1 agent2 pathA pathB)

/-- The bound `paths.size() - 1` of the outer loop of `detectCollisions`,
computed in `size_t`: it wraps around to `2^64 - 1` on an empty vector.  (The
loop counter `i` is an `int`; its overflow past `2^31 - 1`, which only an
empty vector can lead to, is not modelled.) -/
def outerBound (n : Nat) : Nat :=
  if n = 0 then 2 ^ 64 - 1 else n - 1

/-- Embeds `CBSSolver::detectCollisions`: the list is cleared, then for `i` below
the outer bound and `i < j < paths.size()`, in this order, the collision of the
pair `(i, j)` is appended when there is one. -/
def detectCollisions (paths : List (List Point2)) : List Collision :=
  (List.range (outerBound paths.length)).flatMap fun i =>
    (List.range' (i + 1) (paths.length - (i + 1))).filterMap fun j =>
      detectCollision i j (paths.getD i []) (paths.getD j [])

/-- Embeds `CBSSolver::resolveCollision`. -/
def resolveCollision (col : Collision) : List Constraint :=
  if col.isVertexCollision then
    [ { agentNum := col.agent1, t := col.t, isVertexConstraint := true,
        location := col.location },
      { agentNum := col.agent2, t := col.t, isVertexConstraint := true,
        location := col.location } ]
  else
    [ { agentNum := col.agent1, t := col.t, isVertexConstraint := false,
        location := col.location },
      { agentNum := col.agent2, t := col.t, isVertexConstraint := false,
        location := col.location } ]

/-! ## The frontier -/

/-- Embeds `CBSSolver::CTNodeComparator::operator()`. -/
def CTNodeComparator (a b : CTNode) : Bool :=
  if a.cost = b.cost then
    if a.collisionList.length = b.collisionList.length then
      decide (a.id > b.id)
    else
      decide (a.collisionList.length > b.collisionList.length)
  else
    decide (a.cost > b.cost)

/-- The scan behind `pqTop`: `best` is replaced by a later node when the
comparator puts `best` before that node. -/
def pqTopFrom (best : CTNode) : List CTNode → CTNode
  | [] => best
  | x :: xs => if CTNodeComparator best x then pqTopFrom x xs else pqTopFrom best xs

/-- Models `std::priority_queue::top` with `CTNodeComparator`.  The queue is the list
of its elements in the order in which they were pushed.  The standard library
keeps on top an element that the comparator puts before no other element;
among several such elements the embedding takes the one pushed first. -/
def pqTop : List CTNode → Option CTNode
  | [] => none
  | x :: xs => some (pqTopFrom x xs)

/-- Models `std::priority_queue::push`. -/
def pqPush (pq : List CTNode) (n : CTNode) : List CTNode :=
  pq ++ [n]

/-- Models `cur = pq.top(); pq.pop();`: the top node and the queue without it. -/
def pqPop (pq : List CTNode) : Option (CTNode × List CTNode) :=
  match pqTop pq with
  | none => none
  | some cur => some (cur, pq.erase cur)

/-! ## Traces -/

/-- What a run of the solver does, step by step. -/
inductive Event where
  /-- A call `lowLevelSolver.solve(i, root->constraintList, root->paths[i])`
  of the root loop, and what it returned. -/
  | rootPlan (agent : Nat) (found : Bool)
  /-- A node was taken from the queue (`pq.top(); pq.pop()`). -/
  | pop (cur : CTNode)
  /-- A call `lowLevelSolver.solve(c.agentNum, child->constraintList, ...)`
  for a child node, and what it returned. -/
  | replan (agent : Nat) (constraintList : List Constraint) (success : Bool)
  /-- A node was put on the queue (`pq.push`). -/
  | push (node : CTNode)
deriving DecidableEq

/-! ## `CBSSolver::solve` -/

/-- What a run of `solve` ends with: the returned paths or the exception
thrown, and the trace of the run. -/
structure SolveRun where
  result : Except NoSolutionException (List (List Point2))
  trace : List Event

/-- The root loop shared by the text of `solve` and `safeSolve`
(`for (int i = 0; i < instance.startLocs.size(); i++)`), run over the agents
still to plan: each agent is planned against the empty `root->constraintList`
and its path stored in `root->paths[i]`; the first failure ends the loop with
`none`.  (For `i` past the end of `paths` the source writes out of bounds; the
embedding leaves `paths` unchanged there.) -/
def planRoot (ll : LowLevel) :
    List Nat → List (List Point2) → List Event → Option (List (List Point2)) × List Event
  | [], paths, tr => (some paths, tr)
  | i :: rest, paths, tr =>
    match ll i [] with
    | none => (none, tr ++ [Event.rootPlan i false])
    | some path => planRoot ll rest (paths.set i path) (tr ++ [Event.rootPlan i true])

/-- The body of the range-for loop of `solve` for one constraint `c`: the
child copies the constraints and paths of `cur`, appends `c`, and replans the
agent of `c`; it is pushed only when the replan succeeds.  `id` is not assigned
in the source, so the child keeps the `0` that `std::make_shared<CTNode>()`
value-initialises it with. -/
def solveChild (ll : LowLevel) (cur : CTNode) (c : Constraint) (pq : List CTNode)
    (tr : List Event) : List CTNode × List Event :=
  let constraintList := cur.constraintList ++ [c]
  match ll c.agentNum constraintList with
  | some path =>
    let paths := cur.paths.set c.agentNum path
    let child : CTNode :=
      { cost := computeCost paths, paths := paths, collisionList := detectCollisions paths,
        constraintList := constraintList, id := 0 }
    (pqPush pq child, tr ++ [Event.replan c.agentNum constraintList true, Event.push child])
  | none => (pq, tr ++ [Event.replan c.agentNum constraintList false])

/-- The range-for loop of `solve` over the constraints of the resolved
collision. -/
def solveExpand (ll : LowLevel) (cur : CTNode) :
    List Constraint → List CTNode → List Event → List CTNode × List Event
  | [], pq, tr => (pq, tr)
  | c :: cs, pq, tr =>
    solveExpand ll cur cs (solveChild ll cur c pq tr).1 (solveChild ll cur c pq tr).2

/-- The `while (!pq.empty())` loop of `solve`, for at most `fuel` iterations
(the last loop test included). -/
def solveLoop (ll : LowLevel) : Nat → List CTNode → List Event → Option SolveRun
  | 0, _, _ => none
  | fuel + 1, pq, tr =>
    match pqPop pq with
    | none => some ⟨Except.error NoSolutionException.mk, tr⟩
    | some (cur, rest) =>
      match cur.collisionList with
      | [] => some ⟨Except.ok cur.paths, tr ++ [Event.pop cur]⟩
      | col :: _ =>
        solveLoop ll fuel
          (solveExpand ll cur (resolveCollision col) rest (tr ++ [Event.pop cur])).1
          (solveExpand ll cur (resolveCollision col) rest (tr ++ [Event.pop cur])).2

/-- Embeds `CBSSolver::solve`.  The member `numNodesGenerated`, which is only
incremented, is left out. -/
def solve (ll : LowLevel) (inst : MAPFInstance) (fuel : Nat) : Option SolveRun :=
  match planRoot ll (List.range inst.startLocs.length) (List.replicate inst.numAgents []) [] with
  | (none, tr) => some ⟨Except.error NoSolutionException.mk, tr⟩
  | (some paths, tr) =>
    let root : CTNode :=
      { cost := 0, paths := paths, collisionList := detectCollisions paths,
        constraintList := [], id := 0 }
    solveLoop ll fuel (pqPush [] root) (tr ++ [Event.push root])

/-! ## `CBSSolver::safeSolve` -/

/-- What a run of `safeSolve` ends with: the optional node returned, the final
value of the reference parameter `counter`, and the trace of the run. -/
structure SafeSolveRun where
  result : Option CTNode
  counter : Int
  trace : List Event

/-- The body of the range-for loop of `safeSolve` for one constraint `c`: as in
`solve`, with `counter++` after the call of the low-level solver. -/
def safeSolveChild (ll : LowLevel) (cur : CTNode) (c : Constraint) (pq : List CTNode)
    (counter : Int) (tr : List Event) : List CTNode × Int × List Event :=
  let constraintList := cur.constraintList ++ [c]
  match ll c.agentNum constraintList with
  | some path =>
    let paths := cur.paths.set c.agentNum path
    let child : CTNode :=
      { cost := computeCost paths, paths := paths, collisionList := detectCollisions paths,
        constraintList := constraintList, id := 0 }
    (pqPush pq child, counter + 1,
      tr ++ [Event.replan c.agentNum constraintList true, Event.push child])
  | none => (pq, counter + 1, tr ++ [Event.replan c.agentNum constraintList false])

/-- The range-for loop of `safeSolve` over the constraints of the resolved
collision. -/
def safeSolveExpand (ll : LowLevel) (cur : CTNode) :
    List Constraint → List CTNode → Int → List Event → List CTNode × Int × List Event
  | [], pq, counter, tr => (pq, counter, tr)
  | c :: cs, pq, counter, tr =>
    safeSolveExpand ll cur cs (safeSolveChild ll cur c pq counter tr).1
      (safeSolveChild ll cur c pq counter tr).2.1 (safeSolveChild ll cur c pq counter tr).2.2

/-- The `while (!pq.empty())` loop of `safeSolve`, for at most `fuel`
iterations (the last loop test included). -/
def safeSolveLoop (ll : LowLevel) : Nat → List CTNode → Int → List Event → Option SafeSolveRun
  | 0, _, _, _ => none
  | fuel + 1, pq, counter, tr =>
    match pqPop pq with
    | none => some ⟨none, counter, tr⟩
    | some (cur, rest) =>
      match cur.collisionList with
      | [] => some ⟨some cur, counter, tr ++ [Event.pop cur]⟩
      | col :: _ =>
        safeSolveLoop ll fuel
          (safeSolveExpand ll cur (resolveCollision col) rest counter (tr ++ [Event.pop cur])).1
          (safeSolveExpand ll cur (resolveCollision col) rest counter (tr ++ [Event.pop cur])).2.1
          (safeSolveExpand ll cur (resolveCollision col) rest counter (tr ++ [Event.pop cur])).2.2

/-- Embeds `CBSSolver::safeSolve`; `counter` is the value of the reference
parameter at the call.  The `int` counter is an `Int`: signed overflow, which
is undefined in the source, is not modelled. -/
def safeSolve (ll : LowLevel) (inst : MAPFInstance) (counter : Int) (fuel : Nat) :
    Option SafeSolveRun :=
  match planRoot ll (List.range inst.startLocs.length) (List.replicate inst.numAgents []) [] with
  | (none, tr) => some ⟨none, counter, tr⟩
  | (some paths, tr) =>
    let root : CTNode :=
      { cost := 0, paths := paths, collisionList := detectCollisions paths,
        constraintList := [], id := 0 }
    safeSolveLoop ll fuel (pqPush [] root) counter (tr ++ [Event.push root])

/-! ## Notions used in the statements -/

/-- The spec's hold-at-goal location `loc(P, t) = P[min(t, len(P) - 1)]`. -/
def holdAtGoal (path : List Point2) (t : Nat) : Point2 :=
  path.getD (min t (path.length - 1)) default

/-- No vertex conflict at `t` and no swap between `t` and `t + 1`, under the
spec's hold-at-goal location. -/
def NoConflictAt (pathA pathB : List Point2) (t : Nat) : Prop :=
  holdAtGoal pathA t ≠ holdAtGoal pathB t
    ∧ ¬ (holdAtGoal pathA t = holdAtGoal pathB (t + 1)
          ∧ holdAtGoal pathA (t + 1) = holdAtGoal pathB t)

instance (pathA pathB : List Point2) (t : Nat) : Decidable (NoConflictAt pathA pathB t) :=
  inferInstanceAs (Decidable (_ ∧ _))

/-- The order in which the comparator lets nodes leave the queue: `a` may leave
before `b` when `a` has the lower cost, or the same cost and fewer collisions,
or the same cost and collision count and an id that is not higher. -/
def PopsNoLaterThan (a b : CTNode) : Prop :=
  a.cost < b.cost
    ∨ (a.cost = b.cost ∧ a.collisionList.length < b.collisionList.length)
    ∨ (a.cost = b.cost ∧ a.collisionList.length = b.collisionList.length ∧ a.id ≤ b.id)

/-- Popping the queue until it is empty (at most `fuel` pops): the nodes in the
order in which they leave. -/
def pqDrain : Nat → List CTNode → List CTNode
  | 0, _ => []
  | fuel + 1, pq =>
    match pqPop pq with
    | none => []
    | some (cur, rest) => cur :: pqDrain fuel rest

/-- What `solve` does where `safeSolve` ends with `run`: it returns the paths of
the node, or throws when there is no node; the counter is dropped. -/
def SafeSolveRun.toSolveRun (run : SafeSolveRun) : SolveRun :=
  { result :=
      match run.result with
      | some node => Except.ok node.paths
      | none => Except.error NoSolutionException.mk,
    trace := run.trace }

/-- A trace entry that is a replan of a child node. -/
def Event.isReplan : Event → Bool
  | Event.replan _ _ _ => true
  | _ => false

/-- A trace entry that is the pop of a node with a non-empty `collisionList`
(a node that is expanded). -/
def Event.isExpansion : Event → Bool
  | Event.pop cur => !cur.collisionList.isEmpty
  | _ => false

/-- A trace entry that is a call of the root loop. -/
def Event.isRootPlan : Event → Bool
  | Event.rootPlan _ _ => true
  | _ => false

/-- The number of low-level replans attempted for child nodes in a trace. -/
def replanCount (tr : List Event) : Nat :=
  tr.countP Event.isReplan

/-- The number of nodes popped with a non-empty `collisionList` in a trace. -/
def expansionCount (tr : List Event) : Nat :=
  tr.countP Event.isExpansion

/-- The contract of the low-level solver in spec §4.1 (b) and (c), negated:
`path` occupies the vertex that the vertex constraint `c` forbids at the
matching time index, or performs at the matching time index the transition
that the edge constraint `c` forbids. -/
def violates (path : List Point2) (c : Constraint) : Bool :=
  if c.isVertexConstraint then
    decide (c.t < path.length ∧ path.getD c.t default = c.location.1)
  else
    decide (1 ≤ c.t ∧ c.t < path.length ∧ path.getD (c.t - 1) default = c.location.1
      ∧ path.getD c.t default = c.location.2)

/-! ## A worked instance

Two agents cross in the middle of an obstacle-free 3 × 3 grid: agent 0 goes
from `(0,1)` to `(2,1)` and agent 1 from `(1,0)` to `(1,2)`. -/

/-- The crossing instance. -/
def crossInstance : MAPFInstance :=
  { rows := 3, cols := 3,
    map := [[false, false, false], [false, false, false], [false, false, false]],
    numAgents := 2,
    startLocs := [⟨0, 1⟩, ⟨1, 0⟩],
    goalLocs := [⟨2, 1⟩, ⟨1, 2⟩] }

/-- The paths that the low-level solver of the crossing instance chooses from,
shortest first: straight through, or with one wait at the start. -/
def crossCandidates (agent : Nat) : List (List Point2) :=
  match agent with
  | 0 => [[⟨0, 1⟩, ⟨1, 1⟩, ⟨2, 1⟩], [⟨0, 1⟩, ⟨0, 1⟩, ⟨1, 1⟩, ⟨2, 1⟩]]
  | 1 => [[⟨1, 0⟩, ⟨1, 1⟩, ⟨1, 2⟩], [⟨1, 0⟩, ⟨1, 0⟩, ⟨1, 1⟩, ⟨1, 2⟩]]
  | _ => []

/-- A low-level solver for the crossing instance: the first candidate path of
the agent that violates none of the agent's constraints. -/
def crossLL : LowLevel := fun agent constraintList =>
  (crossCandidates agent).find? fun path =>
    constraintList.all fun c => decide (c.agentNum ≠ agent) || !violates path c

/-- The root node of the crossing instance: both agents go straight and meet
in `(1,1)` at time 1. -/
def crossRoot : CTNode :=
  { cost := 0,
    paths := [[⟨0, 1⟩, ⟨1, 1⟩, ⟨2, 1⟩], [⟨1, 0⟩, ⟨1, 1⟩, ⟨1, 2⟩]],
    collisionList :=
      [{ agent1 := 0, agent2 := 1, t := 1, isVertexCollision := true,
         location := (⟨1, 1⟩, ⟨1, 1⟩) }],
    constraintList := [],
    id := 0 }

/-- The first child of `crossRoot`: agent 0 is kept out of `(1,1)` at time 1
and waits one step. -/
def crossChild0 : CTNode :=
  { cost := 7,
    paths := [[⟨0, 1⟩, ⟨0, 1⟩, ⟨1, 1⟩, ⟨2, 1⟩], [⟨1, 0⟩, ⟨1, 1⟩, ⟨1, 2⟩]],
    collisionList := [],
    constraintList :=
      [{ agentNum := 0, t := 1, isVertexConstraint := true, location := (⟨1, 1⟩, ⟨1, 1⟩) }],
    id := 0 }

/-- The second child of `crossRoot`: agent 1 is kept out of `(1,1)` at time 1
and waits one step. -/
def crossChild1 : CTNode :=
  { cost := 7,
    paths := [[⟨0, 1⟩, ⟨1, 1⟩, ⟨2, 1⟩], [⟨1, 0⟩, ⟨1, 0⟩, ⟨1, 1⟩, ⟨1, 2⟩]],
    collisionList := [],
    constraintList :=
      [{ agentNum := 1, t := 1, isVertexConstraint := true, location := (⟨1, 1⟩, ⟨1, 1⟩) }],
    id := 0 }

/-- The trace of the solver on the crossing instance. -/
def crossTrace : List Event :=
  [ Event.rootPlan 0 true,
    Event.rootPlan 1 true,
    Event.push crossRoot,
    Event.pop crossRoot,
    Event.replan 0 crossChild0.constraintList true,
    Event.push crossChild0,
    Event.replan 1 crossChild1.constraintList true,
    Event.push crossChild1,
    Event.pop crossChild0 ]

/-- The run of `safeSolve` on the crossing instance, started with counter 0. -/
def crossRun : SafeSolveRun :=
  { result := some crossChild0, counter := 2, trace := crossTrace }

/-- The child node that the loop bodies of `solve` and `safeSolve` build from
`cur` for the constraint `c` when the replan returns `path`. -/
def childNode (cur : CTNode) (c : Constraint) (path : List Point2) : CTNode :=
  { cost := computeCost (cur.paths.set c.agentNum path),
    paths := cur.paths.set c.agentNum path,
    collisionList := detectCollisions (cur.paths.set c.agentNum path),
    constraintList := cur.constraintList ++ [c],
    id := 0 }

/-- The spec's "no self-collision": any two distinct agents are never in the
same cell at a time `t` and never swap cells between `t` and `t + 1`, for
every `t ≥ 0`, under the hold-at-goal location. -/
def CollisionFree (paths : List (List Point2)) : Prop :=
  ∀ i j, i < paths.length → j < paths.length → i ≠ j → ∀ t,
    holdAtGoal (paths.getD i []) t ≠ holdAtGoal (paths.getD j []) t
    ∧ ¬ (holdAtGoal (paths.getD i []) t = holdAtGoal (paths.getD j []) (t + 1)
          ∧ holdAtGoal (paths.getD i []) (t + 1) = holdAtGoal (paths.getD j []) t)

/-- The same collision seen from the other agent: the two agents exchanged and
the pair of cells reversed. -/
def Collision.swapAgents (col : Collision) : Collision :=
  { agent1 := col.agent2, agent2 := col.agent1, t := col.t,
    isVertexCollision := col.isVertexCollision,
    location := (col.location.2, col.location.1) }

/-- The order of the pairs `(agent1, agent2)`: increasing in `agent1`, and in
`agent2` for equal `agent1`. -/
def Collision.pairBefore (c d : Collision) : Prop :=
  c.agent1 < d.agent1 ∨ (c.agent1 = d.agent1 ∧ c.agent2 < d.agent2)

/-- The node of a trace entry that is a push. -/
def Event.pushed? : Event → Option CTNode
  | Event.push node => some node
  | _ => none

/-- The root node that `solve` and `safeSolve` build: every agent planned with
no constraints, cost `0`, the collisions of these paths, id `0`; `none` when
the low-level solver fails for an agent. -/
def rootNode (ll : LowLevel) (inst : MAPFInstance) : Option CTNode :=
  match (planRoot ll (List.range inst.startLocs.length)
      (List.replicate inst.numAgents []) []).1 with
  | none => none
  | some paths =>
    some { cost := 0, paths := paths, collisionList := detectCollisions paths,
           constraintList := [], id := 0 }

/-! ## A second worked instance

One agent walks one step along an obstacle-free 1 × 2 grid. -/

/-- The one-agent instance. -/
def soloInstance : MAPFInstance :=
  { rows := 1, cols := 2, map := [[false, false]], numAgents := 1,
    startLocs := [⟨0, 0⟩], goalLocs := [⟨0, 1⟩] }

/-- A low-level solver for the one-agent instance: the one-step path, unless a
constraint of the agent is violated by it. -/
def soloLL : LowLevel := fun agent constraintList =>
  if agent = 0 ∧ constraintList.all (fun c => decide (c.agentNum ≠ 0)
      || !violates [⟨0, 0⟩, ⟨0, 1⟩] c) then
    some [⟨0, 0⟩, ⟨0, 1⟩]
  else none

/-- The root node of the one-agent instance. -/
def soloRoot : CTNode :=
  { cost := 0, paths := [[⟨0, 0⟩, ⟨0, 1⟩]], collisionList := [], constraintList := [],
    id := 0 }

/-- The trace entries of the loop body for one constraint `c`: the replan and,
when it succeeds, the push of the child. -/
def childEvents (ll : LowLevel) (cur : CTNode) (c : Constraint) : List Event :=
  match ll c.agentNum (cur.constraintList ++ [c]) with
  | some path =>
    [Event.replan c.agentNum (cur.constraintList ++ [c]) true,
     Event.push (childNode cur c path)]
  | none => [Event.replan c.agentNum (cur.constraintList ++ [c]) false]

/-- The children of `cur` for the constraints `cs` whose replan succeeds, in
the order of `cs`. -/
def childrenOf (ll : LowLevel) (cur : CTNode) (cs : List Constraint) : List CTNode :=
  cs.filterMap fun c => (ll c.agentNum (cur.constraintList ++ [c])).map (childNode cur c)
/-- The constraint that keeps `agent` out of the event of the collision `col`:
same time, same kind, same `location`. -/
def constraintFor (col : Collision) (agent : Nat) : Constraint :=
  { agentNum := agent, t := col.t, isVertexConstraint := col.isVertexCollision,
    location := col.location }

/-- The nodes of the constraint tree of an instance: the root node, and the
children that the loop body builds from a node of the tree with a collision at
index 0 when the replan succeeds.  Every node that a run pushes or pops is one
of them. -/
inductive InTree (ll : LowLevel) (inst : MAPFInstance) : CTNode → Prop where
  | root {r : CTNode} : rootNode ll inst = some r → InTree ll inst r
  | child {cur : CTNode} {col : Collision} {cols : List Collision} {c : Constraint}
      {path : List Point2} :
      InTree ll inst cur → cur.collisionList = col :: cols → c ∈ resolveCollision col →
      ll c.agentNum (cur.constraintList ++ [c]) = some path →
      InTree ll inst (childNode cur c path)

/-! ## Valid paths and the corridor instance -/

/-- A cell inside the grid of the instance. -/
def inGrid (inst : MAPFInstance) (p : Point2) : Prop :=
  0 ≤ p.x ∧ p.x < inst.rows ∧ 0 ≤ p.y ∧ p.y < inst.cols

instance (inst : MAPFInstance) (p : Point2) : Decidable (inGrid inst p) :=
  inferInstanceAs (Decidable (_ ∧ _))

/-- A wait, or one move in a cardinal direction (spec §4.1 (a)). -/
def isStep (p q : Point2) : Prop :=
  p = q
    ∨ (p.x = q.x ∧ (p.y = q.y + 1 ∨ q.y = p.y + 1))
    ∨ (p.y = q.y ∧ (p.x = q.x + 1 ∨ q.x = p.x + 1))

instance (p q : Point2) : Decidable (isStep p q) :=
  inferInstanceAs (Decidable (_ ∨ _))

/-- A path of the agent in the sense of spec §3 and §4.1 (a): it starts at the
agent's start cell, ends at its goal cell, stays inside the grid, and each step
is a wait or a single cardinal move.  (Obstacles are not looked at.) -/
def ValidPath (inst : MAPFInstance) (agent : Nat) (path : List Point2) : Prop :=
  path ≠ []
    ∧ path.head? = inst.startLocs[agent]?
    ∧ path.getLast? = inst.goalLocs[agent]?
    ∧ (∀ p, p ∈ path → inGrid inst p)
    ∧ path.Chain' isStep

/-- The obstacle-free 1 × 3 corridor with two agents that start at the two end
cells and have each other's start cell as goal. -/
def corridorInstance : MAPFInstance :=
  { rows := 1, cols := 3, map := [[false, false, false]], numAgents := 2,
    startLocs := [⟨0, 0⟩, ⟨0, 2⟩], goalLocs := [⟨0, 2⟩, ⟨0, 0⟩] }

/-- The paths that the low-level solver of the corridor chooses from, shortest
first: straight through, or with one wait before the first or the second
move. -/
def corridorCandidates (agent : Nat) : List (List Point2) :=
  match agent with
  | 0 => [[⟨0, 0⟩, ⟨0, 1⟩, ⟨0, 2⟩], [⟨0, 0⟩, ⟨0, 0⟩, ⟨0, 1⟩, ⟨0, 2⟩],
          [⟨0, 0⟩, ⟨0, 1⟩, ⟨0, 1⟩, ⟨0, 2⟩]]
  | 1 => [[⟨0, 2⟩, ⟨0, 1⟩, ⟨0, 0⟩], [⟨0, 2⟩, ⟨0, 2⟩, ⟨0, 1⟩, ⟨0, 0⟩],
          [⟨0, 2⟩, ⟨0, 1⟩, ⟨0, 1⟩, ⟨0, 0⟩]]
  | _ => []

/-- A low-level solver for the corridor with a time bound: the first candidate
path of the agent with at most `bound` moves that violates none of the agent's
constraints. -/
def corridorLL (bound : Nat) : LowLevel := fun agent constraintList =>
  ((corridorCandidates agent).filter fun path => decide (path.length ≤ bound + 1)).find?
    fun path => constraintList.all fun c => decide (c.agentNum ≠ agent) || !violates path c

/-! # Theorems -/

/-! ## `getLocation` and `detectCollision` -/

theorem getLocation_eq_holdAtGoal (path : List Point2) (t : Nat) :
    getLocation path t = holdAtGoal path t := by
  unfold getLocation holdAtGoal
  split
  · next h => rw [Nat.min_eq_right (by omega)]
  · next h => rw [Nat.min_eq_left (by omega)]

theorem holdAtGoal_of_le (path : List Point2) {t : Nat} (h : path.length - 1 ≤ t) :
    holdAtGoal path t = holdAtGoal path (path.length - 1) := by
  unfold holdAtGoal
  rw [Nat.min_eq_right h, Nat.min_self]

theorem detectCollisionAt_eq_none_iff (a b : Nat) (pathA pathB : List Point2) (t : Nat) :
    detectCollisionAt a b pathA pathB t = none ↔ NoConflictAt pathA pathB t := by
  unfold detectCollisionAt NoConflictAt
  simp only [getLocation_eq_holdAtGoal]
  split
  · next h => simp [h]
  · next h =>
    split
    · next h2 => simp [h2]
    · next h2 => simp [h, h2]

theorem detectCollision_eq_none_iff (a b : Nat) (pathA pathB : List Point2) :
    detectCollision a b pathA pathB = none
      ↔ ∀ t, t < max pathA.length pathB.length → NoConflictAt pathA pathB t := by
  unfold detectCollision
  simp [List.findSome?_eq_none_iff, detectCollisionAt_eq_none_iff]

/-- The first hit of a search over `range n`. -/
theorem findSome?_range_eq_some {β : Type} (f : Nat → Option β) (n : Nat) (c : β) :
    (List.range n).findSome? f = some c
      ↔ ∃ t, t < n ∧ f t = some c ∧ ∀ s, s < t → f s = none := by
  induction n generalizing c with
  | zero => simp
  | succ n ih =>
    rw [List.range_succ, List.findSome?_append]
    cases hfn : (List.range n).findSome? f with
    | some d =>
      obtain ⟨t, htn, hft, hmin⟩ := (ih d).mp hfn
      simp only [Option.or_some]
      constructor
      · intro h
        cases h
        exact ⟨t, by omega, hft, hmin⟩
      · rintro ⟨u, _, hfu, humin⟩
        rcases Nat.lt_trichotomy t u with h | h | h
        · rw [humin t h] at hft; cases hft
        · subst h; rw [hft] at hfu; exact hfu
        · rw [hmin u h] at hfu; cases hfu
    | none =>
      rw [List.findSome?_eq_none_iff] at hfn
      have hnone : ∀ s, s < n → f s = none := fun s hs => hfn s (List.mem_range.mpr hs)
      simp only [Option.none_or, List.findSome?_cons, List.findSome?_nil]
      constructor
      · intro h
        refine ⟨n, by omega, ?_, hnone⟩
        cases hf : f n with
        | none => rw [hf] at h; cases h
        | some e => rw [hf] at h; exact h
      · rintro ⟨u, hu, hfu, _⟩
        have : u = n := by
          by_contra hne
          rw [hnone u (by omega)] at hfu
          cases hfu
        subst this
        rw [hfu]

theorem detectCollision_eq_some_iff (a b : Nat) (pathA pathB : List Point2) (col : Collision) :
    detectCollision a b pathA pathB = some col
      ↔ ∃ t, t < max pathA.length pathB.length
          ∧ detectCollisionAt a b pathA pathB t = some col
          ∧ ∀ s, s < t → NoConflictAt pathA pathB s := by
  unfold detectCollision
  rw [findSome?_range_eq_some]
  simp only [detectCollisionAt_eq_none_iff]


/-- C6: for non-empty paths, `getLocation` is the hold-at-goal location
`P[min(t, len(P) - 1)]`, and `detectCollision` reports no collision exactly
when at every `t < max(len A, len B)` the two cells differ and the agents do
not swap cells between `t` and `t + 1`. -/
theorem detectCollision_none_iff_conflict_free (a b : Nat) (pathA pathB : List Point2)
    (hA : pathA ≠ []) (hB : pathB ≠ []) :
    (∀ t, min t (pathA.length - 1) < pathA.length
        ∧ getLocation pathA t = pathA.getD (min t (pathA.length - 1)) default)
    ∧ (∀ t, min t (pathB.length - 1) < pathB.length
        ∧ getLocation pathB t = pathB.getD (min t (pathB.length - 1)) default)
    ∧ (detectCollision a b pathA pathB = none
        ↔ ∀ t, t < max pathA.length pathB.length →
            holdAtGoal pathA t ≠ holdAtGoal pathB t
            ∧ ¬ (holdAtGoal pathA t = holdAtGoal pathB (t + 1)
                  ∧ holdAtGoal pathA (t + 1) = holdAtGoal pathB t)) := by
  have hlA : 0 < pathA.length := List.length_pos.mpr hA
  have hlB : 0 < pathB.length := List.length_pos.mpr hB
  refine ⟨fun t => ⟨?_, getLocation_eq_holdAtGoal pathA t⟩,
    fun t => ⟨?_, getLocation_eq_holdAtGoal pathB t⟩, detectCollision_eq_none_iff a b pathA pathB⟩
  · exact lt_of_le_of_lt (Nat.min_le_right _ _) (by omega)
  · exact lt_of_le_of_lt (Nat.min_le_right _ _) (by omega)

theorem detectCollision_none_iff_conflict_free_witness :
    ([⟨0, 0⟩, ⟨1, 0⟩] : List Point2) ≠ [] ∧ ([⟨0, 1⟩] : List Point2) ≠ []
    ∧ (detectCollision 0 1 [⟨0, 0⟩, ⟨1, 0⟩] [⟨0, 1⟩] = none
        ↔ ∀ t, t < max ([⟨0, 0⟩, ⟨1, 0⟩] : List Point2).length ([⟨0, 1⟩] : List Point2).length →
            holdAtGoal [⟨0, 0⟩, ⟨1, 0⟩] t ≠ holdAtGoal [⟨0, 1⟩] t
            ∧ ¬ (holdAtGoal [⟨0, 0⟩, ⟨1, 0⟩] t = holdAtGoal [⟨0, 1⟩] (t + 1)
                  ∧ holdAtGoal [⟨0, 0⟩, ⟨1, 0⟩] (t + 1) = holdAtGoal [⟨0, 1⟩] t)) :=
  ⟨by decide, by decide,
    (detectCollision_none_iff_conflict_free 0 1 [⟨0, 0⟩, ⟨1, 0⟩] [⟨0, 1⟩]
      (by decide) (by decide)).2.2⟩

/-- C5, as the code has it: `detectCollision` reports the conflict that is
first in time.  When `t0 < max(len A, len B)` is the first time with a shared
cell at `t0` or a swap between `t0` and `t0 + 1`, the report is the vertex
collision at `t0` if the cell is shared at `t0`, and otherwise the edge
collision with time `t0 + 1` and cells `loc(A, t0)`, `loc(A, t0 + 1)`. -/
theorem detectCollision_reports_first_conflict (a b : Nat) (pathA pathB : List Point2)
    (_ : pathA ≠ []) (_ : pathB ≠ []) (t0 : Nat)
    (ht0 : t0 < max pathA.length pathB.length)
    (hfirst : ∀ s, s < t0 → NoConflictAt pathA pathB s)
    (hconf : ¬ NoConflictAt pathA pathB t0) :
    detectCollision a b pathA pathB =
      some (if holdAtGoal pathA t0 = holdAtGoal pathB t0
        then createVertexCollision a b t0 (holdAtGoal pathA t0)
        else createEdgeCollision a b (t0 + 1) (holdAtGoal pathA t0) (holdAtGoal pathA (t0 + 1))) := by
  rw [detectCollision_eq_some_iff]
  refine ⟨t0, ht0, ?_, hfirst⟩
  unfold detectCollisionAt
  simp only [getLocation_eq_holdAtGoal]
  unfold NoConflictAt at hconf
  by_cases hv : holdAtGoal pathA t0 = holdAtGoal pathB t0
  · rw [if_pos hv, if_pos hv]
  · have he : holdAtGoal pathA t0 = holdAtGoal pathB (t0 + 1)
        ∧ holdAtGoal pathA (t0 + 1) = holdAtGoal pathB t0 := by
      by_contra hne
      exact hconf ⟨hv, hne⟩
    rw [if_neg hv, if_pos he, if_neg hv]


theorem detectCollision_reports_first_conflict_witness :
    ([⟨0, 0⟩, ⟨1, 0⟩, ⟨2, 0⟩] : List Point2) ≠ []
    ∧ ([⟨1, 0⟩, ⟨0, 0⟩, ⟨2, 0⟩] : List Point2) ≠ []
    ∧ 0 < max ([⟨0, 0⟩, ⟨1, 0⟩, ⟨2, 0⟩] : List Point2).length
          ([⟨1, 0⟩, ⟨0, 0⟩, ⟨2, 0⟩] : List Point2).length
    ∧ ¬ NoConflictAt [⟨0, 0⟩, ⟨1, 0⟩, ⟨2, 0⟩] [⟨1, 0⟩, ⟨0, 0⟩, ⟨2, 0⟩] 0
    ∧ detectCollision 0 1 [⟨0, 0⟩, ⟨1, 0⟩, ⟨2, 0⟩] [⟨1, 0⟩, ⟨0, 0⟩, ⟨2, 0⟩] =
        some (if holdAtGoal [⟨0, 0⟩, ⟨1, 0⟩, ⟨2, 0⟩] 0 = holdAtGoal [⟨1, 0⟩, ⟨0, 0⟩, ⟨2, 0⟩] 0
          then createVertexCollision 0 1 0 (holdAtGoal [⟨0, 0⟩, ⟨1, 0⟩, ⟨2, 0⟩] 0)
          else createEdgeCollision 0 1 (0 + 1) (holdAtGoal [⟨0, 0⟩, ⟨1, 0⟩, ⟨2, 0⟩] 0)
            (holdAtGoal [⟨0, 0⟩, ⟨1, 0⟩, ⟨2, 0⟩] (0 + 1))) :=
  ⟨by decide, by decide, by decide, by decide,
    detectCollision_reports_first_conflict 0 1 [⟨0, 0⟩, ⟨1, 0⟩, ⟨2, 0⟩]
      [⟨1, 0⟩, ⟨0, 0⟩, ⟨2, 0⟩] (by decide) (by decide) 0 (by decide)
      (fun s hs => absurd hs (Nat.not_lt_zero s)) (by decide)⟩

/-- C5 as stated fails: the paths `(0,0) (1,0) (2,0)` and `(1,0) (0,0) (2,0)`
share the cell `(2,0)` at time 2, and at no earlier time, yet the report is
the edge collision of the swap between times 0 and 1, not a vertex
collision. -/
theorem detectCollision_edge_before_later_vertex :
    2 < max ([⟨0, 0⟩, ⟨1, 0⟩, ⟨2, 0⟩] : List Point2).length
          ([⟨1, 0⟩, ⟨0, 0⟩, ⟨2, 0⟩] : List Point2).length
    ∧ getLocation [⟨0, 0⟩, ⟨1, 0⟩, ⟨2, 0⟩] 2 = getLocation [⟨1, 0⟩, ⟨0, 0⟩, ⟨2, 0⟩] 2
    ∧ getLocation [⟨0, 0⟩, ⟨1, 0⟩, ⟨2, 0⟩] 0 ≠ getLocation [⟨1, 0⟩, ⟨0, 0⟩, ⟨2, 0⟩] 0
    ∧ getLocation [⟨0, 0⟩, ⟨1, 0⟩, ⟨2, 0⟩] 1 ≠ getLocation [⟨1, 0⟩, ⟨0, 0⟩, ⟨2, 0⟩] 1
    ∧ detectCollision 0 1 [⟨0, 0⟩, ⟨1, 0⟩, ⟨2, 0⟩] [⟨1, 0⟩, ⟨0, 0⟩, ⟨2, 0⟩] =
        some { agent1 := 0, agent2 := 1, t := 1, isVertexCollision := false,
               location := (⟨0, 0⟩, ⟨1, 0⟩) }
    ∧ detectCollision 0 1 [⟨0, 0⟩, ⟨1, 0⟩, ⟨2, 0⟩] [⟨1, 0⟩, ⟨0, 0⟩, ⟨2, 0⟩] ≠
        some (createVertexCollision 0 1 2 ⟨2, 0⟩) := by
  decide

/-- C7, as the code has it: an edge collision that `detectCollision` reports for
agents `a1`, `a2` has a time `t ≥ 1`, and `resolveCollision` turns it into
exactly two edge constraints at time `t`, the first for `a1` and the second for
`a2`, both carrying the same ordered pair of cells: `a1`'s move from its cell
at `t - 1` to its cell at `t`.  For `a2` this pair is its own move reversed. -/
theorem resolveCollision_edge (a1 a2 : Nat) (pathA pathB : List Point2)
    (_ : pathA ≠ []) (_ : pathB ≠ []) (col : Collision)
    (hdet : detectCollision a1 a2 pathA pathB = some col)
    (hedge : col.isVertexCollision = false) :
    1 ≤ col.t
    ∧ resolveCollision col =
        [ { agentNum := a1, t := col.t, isVertexConstraint := false,
            location := (getLocation pathA (col.t - 1), getLocation pathA col.t) },
          { agentNum := a2, t := col.t, isVertexConstraint := false,
            location := (getLocation pathA (col.t - 1), getLocation pathA col.t) } ]
    ∧ getLocation pathA (col.t - 1) = getLocation pathB col.t
    ∧ getLocation pathA col.t = getLocation pathB (col.t - 1) := by
  obtain ⟨t, _, hat, _⟩ := (detectCollision_eq_some_iff a1 a2 pathA pathB col).mp hdet
  unfold detectCollisionAt at hat
  split at hat
  · cases hat
    simp [createVertexCollision] at hedge
  · split at hat
    · next hsw =>
      cases hat
      simp only [createEdgeCollision, Nat.add_sub_cancel]
      refine ⟨by omega, ?_, hsw.1, hsw.2⟩
      simp [resolveCollision]
    · cases hat

theorem resolveCollision_edge_witness :
    ([⟨0, 0⟩, ⟨1, 0⟩] : List Point2) ≠ [] ∧ ([⟨1, 0⟩, ⟨0, 0⟩] : List Point2) ≠ []
    ∧ detectCollision 0 1 [⟨0, 0⟩, ⟨1, 0⟩] [⟨1, 0⟩, ⟨0, 0⟩] =
        some (createEdgeCollision 0 1 1 ⟨0, 0⟩ ⟨1, 0⟩)
    ∧ resolveCollision (createEdgeCollision 0 1 1 ⟨0, 0⟩ ⟨1, 0⟩) =
        [ { agentNum := 0, t := 1, isVertexConstraint := false,
            location := (getLocation [⟨0, 0⟩, ⟨1, 0⟩] (1 - 1), getLocation [⟨0, 0⟩, ⟨1, 0⟩] 1) },
          { agentNum := 1, t := 1, isVertexConstraint := false,
            location := (getLocation [⟨0, 0⟩, ⟨1, 0⟩] (1 - 1), getLocation [⟨0, 0⟩, ⟨1, 0⟩] 1) } ] :=
  ⟨by decide, by decide, by decide,
    (resolveCollision_edge 0 1 [⟨0, 0⟩, ⟨1, 0⟩] [⟨1, 0⟩, ⟨0, 0⟩] (by decide) (by decide)
      (createEdgeCollision 0 1 1 ⟨0, 0⟩ ⟨1, 0⟩) (by decide) rfl).2.1⟩

/-- C7 as stated fails: for the head-on paths `(0,0) (1,0)` of agent 0 and
`(1,0) (0,0)` of agent 1, the constraint that `resolveCollision` gives agent 1
names the move `(0,0) → (1,0)`, which is agent 0's move, and not agent 1's own
move `(1,0) → (0,0)` from its cell at `t - 1` to its cell at `t`. -/
theorem resolveCollision_edge_second_not_own_move :
    ∃ col c1 c2,
      detectCollision 0 1 [⟨0, 0⟩, ⟨1, 0⟩] [⟨1, 0⟩, ⟨0, 0⟩] = some col
      ∧ col.isVertexCollision = false
      ∧ resolveCollision col = [c1, c2]
      ∧ c2.agentNum = 1
      ∧ c2.location = ((⟨0, 0⟩, ⟨1, 0⟩) : Point2 × Point2)
      ∧ c2.location ≠
          (getLocation [⟨1, 0⟩, ⟨0, 0⟩] (col.t - 1), getLocation [⟨1, 0⟩, ⟨0, 0⟩] col.t) :=
  ⟨createEdgeCollision 0 1 1 ⟨0, 0⟩ ⟨1, 0⟩,
    { agentNum := 0, t := 1, isVertexConstraint := false, location := (⟨0, 0⟩, ⟨1, 0⟩) },
    { agentNum := 1, t := 1, isVertexConstraint := false, location := (⟨0, 0⟩, ⟨1, 0⟩) },
    by decide, rfl, by decide, rfl, rfl, by decide⟩

/-- C8: a vertex collision `{a1, a2, t, L}` is resolved into exactly two
constraints, in this order: the vertex constraint on `a1` at time `t` and
location `L`, then the vertex constraint on `a2` at time `t` and location
`L`. -/
theorem resolveCollision_vertex (a1 a2 t : Nat) (L : Point2 × Point2) :
    resolveCollision
        { agent1 := a1, agent2 := a2, t := t, isVertexCollision := true, location := L } =
      [ { agentNum := a1, t := t, isVertexConstraint := true, location := L },
        { agentNum := a2, t := t, isVertexConstraint := true, location := L } ] := by
  simp [resolveCollision]

/-! ## The frontier -/

theorem CTNodeComparator_eq_false_iff (a b : CTNode) :
    CTNodeComparator a b = false ↔ PopsNoLaterThan a b := by
  unfold CTNodeComparator PopsNoLaterThan
  split
  · next hc =>
    split
    · next hl => simp only [decide_eq_false_iff_not]; omega
    · next hl => simp only [decide_eq_false_iff_not]; omega
  · next hc => simp only [decide_eq_false_iff_not]; omega

theorem PopsNoLaterThan_trans {a b c : CTNode} (hab : PopsNoLaterThan a b)
    (hbc : PopsNoLaterThan b c) : PopsNoLaterThan a c := by
  unfold PopsNoLaterThan at *
  omega

theorem PopsNoLaterThan_total (a b : CTNode) : PopsNoLaterThan a b ∨ PopsNoLaterThan b a := by
  unfold PopsNoLaterThan
  omega

theorem pqTopFrom_mem (best : CTNode) (xs : List CTNode) : pqTopFrom best xs ∈ best :: xs := by
  induction xs generalizing best with
  | nil => simp [pqTopFrom]
  | cons x xs ih =>
    unfold pqTopFrom
    split
    · exact List.mem_cons_of_mem _ (ih x)
    · have := ih best
      simp only [List.mem_cons] at this ⊢
      tauto

theorem pqTopFrom_first (best : CTNode) (xs : List CTNode) :
    ∀ b, b ∈ best :: xs → PopsNoLaterThan (pqTopFrom best xs) b := by
  induction xs generalizing best with
  | nil =>
    intro b hb
    simp only [List.mem_singleton] at hb
    subst hb
    unfold pqTopFrom PopsNoLaterThan
    omega
  | cons x xs ih =>
    intro b hb
    unfold pqTopFrom
    split
    · next hcmp =>
      have hx : PopsNoLaterThan x best := by
        rcases PopsNoLaterThan_total x best with h | h
        · exact h
        · rw [← CTNodeComparator_eq_false_iff] at h
          rw [h] at hcmp
          cases hcmp
      simp only [List.mem_cons] at hb
      rcases hb with hb | hb | hb
      · subst hb
        exact PopsNoLaterThan_trans (ih x x (List.mem_cons_self _ _)) hx
      · subst hb
        exact ih b b (List.mem_cons_self _ _)
      · exact ih x b (List.mem_cons_of_mem _ hb)
    · next hcmp =>
      have hx : PopsNoLaterThan best x := by
        rw [← CTNodeComparator_eq_false_iff]
        simpa using hcmp
      simp only [List.mem_cons] at hb
      rcases hb with hb | hb | hb
      · subst hb
        exact ih b b (List.mem_cons_self _ _)
      · subst hb
        exact PopsNoLaterThan_trans (ih best best (List.mem_cons_self _ _)) hx
      · exact ih best b (List.mem_cons_of_mem _ hb)

theorem pqPop_eq_none_iff (pq : List CTNode) : pqPop pq = none ↔ pq = [] := by
  cases pq with
  | nil => simp [pqPop, pqTop]
  | cons x xs => simp [pqPop, pqTop]

theorem pqPop_some {pq : List CTNode} {cur : CTNode} {rest : List CTNode}
    (h : pqPop pq = some (cur, rest)) :
    cur ∈ pq ∧ rest = pq.erase cur ∧ pq.Perm (cur :: rest)
      ∧ ∀ b, b ∈ pq → PopsNoLaterThan cur b := by
  cases pq with
  | nil => simp [pqPop, pqTop] at h
  | cons x xs =>
    simp only [pqPop, pqTop, Option.some.injEq, Prod.mk.injEq] at h
    obtain ⟨h1, h2⟩ := h
    subst h1
    have hmem := pqTopFrom_mem x xs
    exact ⟨hmem, h2.symm, h2 ▸ List.perm_cons_erase hmem, pqTopFrom_first x xs⟩

theorem pqPop_rest_subset {pq : List CTNode} {cur : CTNode} {rest : List CTNode}
    (h : pqPop pq = some (cur, rest)) : ∀ b, b ∈ rest → b ∈ pq := by
  intro b hb
  obtain ⟨_, hrest, _, _⟩ := pqPop_some h
  subst hrest
  exact List.mem_of_mem_erase hb

theorem pqDrain_spec (fuel : Nat) (pq : List CTNode) (hfuel : pq.length ≤ fuel) :
    (pqDrain fuel pq).Perm pq ∧ (pqDrain fuel pq).Pairwise PopsNoLaterThan := by
  induction fuel generalizing pq with
  | zero =>
    have : pq = [] := List.length_eq_zero.mp (by omega)
    subst this
    simp [pqDrain]
  | succ fuel ih =>
    unfold pqDrain
    cases hpop : pqPop pq with
    | none =>
      rw [pqPop_eq_none_iff] at hpop
      subst hpop
      simp
    | some p =>
      obtain ⟨cur, rest⟩ := p
      obtain ⟨hmem, hrest, hperm, hfirst⟩ := pqPop_some hpop
      have hlen : rest.length ≤ fuel := by
        have := hperm.length_eq
        simp only [List.length_cons] at this
        omega
      obtain ⟨ihp, ihs⟩ := ih rest hlen
      refine ⟨(List.Perm.cons cur ihp).trans hperm.symm, ?_⟩
      rw [List.pairwise_cons]
      refine ⟨fun b hb => hfirst b ?_, ihs⟩
      exact pqPop_rest_subset hpop b (ihp.subset hb)

/-- C9, as the code has it: whenever a node `cur` is popped from a queue, every
node `b` of the queue satisfies: `cur.cost < b.cost`, or the costs are equal
and `cur` has fewer collisions, or costs and collision counts are equal and
`cur.id ≤ b.id` (the LOWER id leaves first).  Popping a queue until it is empty
yields all its nodes, each once, in that order. -/
theorem pq_pops_lowest_first (pq : List CTNode) :
    (∀ cur rest, pqPop pq = some (cur, rest) →
        pq.Perm (cur :: rest)
        ∧ ∀ b, b ∈ pq →
            cur.cost < b.cost
            ∨ (cur.cost = b.cost ∧ cur.collisionList.length < b.collisionList.length)
            ∨ (cur.cost = b.cost ∧ cur.collisionList.length = b.collisionList.length
                ∧ cur.id ≤ b.id))
    ∧ (pqPop pq = none ↔ pq = [])
    ∧ (pqDrain pq.length pq).Perm pq
    ∧ (pqDrain pq.length pq).Pairwise PopsNoLaterThan := by
  refine ⟨fun cur rest h => ?_, pqPop_eq_none_iff pq, pqDrain_spec _ pq (Nat.le_refl _)⟩
  obtain ⟨_, _, hperm, hfirst⟩ := pqPop_some h
  exact ⟨hperm, hfirst⟩

/-- C9 as stated fails: of two queued nodes with the same cost and the same
number of collisions, one with id 1 and one with id 2, the node with the
lower id 1 is popped first and the node with the higher id 2 second, in
whichever order the two were pushed. -/
theorem pq_pops_lower_id_first :
    pqPop (pqPush (pqPush [] ⟨0, [], [], [], 1⟩) ⟨0, [], [], [], 2⟩)
        = some (⟨0, [], [], [], 1⟩, [⟨0, [], [], [], 2⟩])
    ∧ pqPop (pqPush (pqPush [] ⟨0, [], [], [], 2⟩) ⟨0, [], [], [], 1⟩)
        = some (⟨0, [], [], [], 1⟩, [⟨0, [], [], [], 2⟩])
    ∧ pqDrain 2 (pqPush (pqPush [] ⟨0, [], [], [], 2⟩) ⟨0, [], [], [], 1⟩)
        = [⟨0, [], [], [], 1⟩, ⟨0, [], [], [], 2⟩]
    ∧ CTNodeComparator ⟨0, [], [], [], 2⟩ ⟨0, [], [], [], 1⟩ = true := by
  decide


theorem pq_pops_lowest_first_witness :
    pqPop [⟨5, [], [], [], 0⟩, ⟨3, [], [], [], 0⟩]
        = some (⟨3, [], [], [], 0⟩, [⟨5, [], [], [], 0⟩])
    ∧ ([⟨5, [], [], [], 0⟩, ⟨3, [], [], [], 0⟩] : List CTNode).Perm
        (⟨3, [], [], [], 0⟩ :: [⟨5, [], [], [], 0⟩]) :=
  ⟨by decide,
    ((pq_pops_lowest_first [⟨5, [], [], [], 0⟩, ⟨3, [], [], [], 0⟩]).1
      ⟨3, [], [], [], 0⟩ [⟨5, [], [], [], 0⟩] (by decide)).1⟩

/-! ## `solve` and `safeSolve` run the same search -/

/-- The child node that the loop body builds for constraint `c` when the replan
returns `path`. -/
theorem solveChild_some {ll : LowLevel} {cur : CTNode} {c : Constraint} {path : List Point2}
    (h : ll c.agentNum (cur.constraintList ++ [c]) = some path) (pq : List CTNode)
    (tr : List Event) :
    solveChild ll cur c pq tr =
      (pqPush pq
        { cost := computeCost (cur.paths.set c.agentNum path),
          paths := cur.paths.set c.agentNum path,
          collisionList := detectCollisions (cur.paths.set c.agentNum path),
          constraintList := cur.constraintList ++ [c], id := 0 },
       tr ++ [Event.replan c.agentNum (cur.constraintList ++ [c]) true,
         Event.push
          { cost := computeCost (cur.paths.set c.agentNum path),
            paths := cur.paths.set c.agentNum path,
            collisionList := detectCollisions (cur.paths.set c.agentNum path),
            constraintList := cur.constraintList ++ [c], id := 0 }]) := by
  unfold solveChild
  simp only [h]

theorem solveChild_none {ll : LowLevel} {cur : CTNode} {c : Constraint}
    (h : ll c.agentNum (cur.constraintList ++ [c]) = none) (pq : List CTNode)
    (tr : List Event) :
    solveChild ll cur c pq tr =
      (pq, tr ++ [Event.replan c.agentNum (cur.constraintList ++ [c]) false]) := by
  unfold solveChild
  simp only [h]

theorem safeSolveChild_fst (ll : LowLevel) (cur : CTNode) (c : Constraint) (pq : List CTNode)
    (counter : Int) (tr : List Event) :
    (safeSolveChild ll cur c pq counter tr).1 = (solveChild ll cur c pq tr).1
    ∧ (safeSolveChild ll cur c pq counter tr).2.1 = counter + 1
    ∧ (safeSolveChild ll cur c pq counter tr).2.2 = (solveChild ll cur c pq tr).2 := by
  unfold safeSolveChild solveChild
  cases h : ll c.agentNum (cur.constraintList ++ [c]) <;> simp [h]

theorem safeSolveExpand_eq (ll : LowLevel) (cur : CTNode) (cs : List Constraint)
    (pq : List CTNode) (counter : Int) (tr : List Event) :
    (safeSolveExpand ll cur cs pq counter tr).1 = (solveExpand ll cur cs pq tr).1
    ∧ (safeSolveExpand ll cur cs pq counter tr).2.1 = counter + cs.length
    ∧ (safeSolveExpand ll cur cs pq counter tr).2.2 = (solveExpand ll cur cs pq tr).2 := by
  induction cs generalizing pq counter tr with
  | nil => simp [safeSolveExpand, solveExpand]
  | cons c cs ih =>
    obtain ⟨h1, h2, h3⟩ := safeSolveChild_fst ll cur c pq counter tr
    unfold safeSolveExpand solveExpand
    rw [h1, h2, h3]
    obtain ⟨i1, i2, i3⟩ := ih (solveChild ll cur c pq tr).1 (counter + 1) (solveChild ll cur c pq tr).2
    refine ⟨i1, ?_, i3⟩
    rw [i2]
    simp only [List.length_cons, Nat.cast_add, Nat.cast_one]
    omega

theorem solveLoop_eq_safeSolveLoop (ll : LowLevel) (fuel : Nat) (pq : List CTNode)
    (counter : Int) (tr : List Event) :
    solveLoop ll fuel pq tr
      = (safeSolveLoop ll fuel pq counter tr).map SafeSolveRun.toSolveRun := by
  induction fuel generalizing pq counter tr with
  | zero => simp [solveLoop, safeSolveLoop]
  | succ fuel ih =>
    unfold solveLoop safeSolveLoop
    cases hpop : pqPop pq with
    | none => simp [SafeSolveRun.toSolveRun]
    | some p =>
      obtain ⟨cur, rest⟩ := p
      simp only
      cases hcl : cur.collisionList with
      | nil => simp [SafeSolveRun.toSolveRun]
      | cons col cols =>
        simp only
        obtain ⟨h1, _, h3⟩ := safeSolveExpand_eq ll cur (resolveCollision col) rest counter
          (tr ++ [Event.pop cur])
        rw [← h1, ← h3]
        exact ih _ _ _

theorem solve_eq_safeSolve (ll : LowLevel) (inst : MAPFInstance) (counter : Int) (fuel : Nat) :
    solve ll inst fuel = (safeSolve ll inst counter fuel).map SafeSolveRun.toSolveRun := by
  unfold solve safeSolve
  split
  · next tr h =>
    simp [h, SafeSolveRun.toSolveRun]
  · next paths tr h =>
    simp only [h]
    exact solveLoop_eq_safeSolveLoop ll fuel _ counter _


/-! ## The root loop -/

theorem planRoot_trace (ll : LowLevel) (agents : List Nat) (paths : List (List Point2))
    (tr : List Event) :
    ∃ evs, (planRoot ll agents paths tr).2 = tr ++ evs
      ∧ ∀ e, e ∈ evs → e.isRootPlan = true := by
  induction agents generalizing paths tr with
  | nil => exact ⟨[], by simp [planRoot]⟩
  | cons i rest ih =>
    unfold planRoot
    cases h : ll i [] with
    | none =>
      refine ⟨[Event.rootPlan i false], rfl, ?_⟩
      intro e he
      simp only [List.mem_singleton] at he
      subst he
      rfl
    | some path =>
      obtain ⟨evs, hevs, hall⟩ := ih (paths.set i path) (tr ++ [Event.rootPlan i true])
      refine ⟨Event.rootPlan i true :: evs, ?_, ?_⟩
      · simp only [hevs, List.append_assoc, List.singleton_append]
      · intro e he
        simp only [List.mem_cons] at he
        rcases he with he | he
        · subst he; rfl
        · exact hall e he

theorem planRoot_fails (ll : LowLevel) (agents : List Nat) (paths : List (List Point2))
    (tr : List Event) (h : ∃ i, i ∈ agents ∧ ll i [] = none) :
    (planRoot ll agents paths tr).1 = none := by
  induction agents generalizing paths tr with
  | nil =>
    obtain ⟨i, hi, _⟩ := h
    cases hi
  | cons j rest ih =>
    unfold planRoot
    cases hj : ll j [] with
    | none => rfl
    | some path =>
      obtain ⟨i, hi, hll⟩ := h
      simp only [List.mem_cons] at hi
      rcases hi with hi | hi
      · subst hi
        rw [hll] at hj
        cases hj
      · exact ih _ _ ⟨i, hi, hll⟩

/-- C2: when the low-level solver fails for some agent under the empty
constraint list, `solve` throws `NoSolutionException` and `safeSolve` returns
no node, whatever the fuel; `safeSolve` leaves the counter at the value it was
given, and the run consists of calls of the root loop only: no node is pushed
or popped and no child replan is attempted. -/
theorem solve_fails_at_root (ll : LowLevel) (inst : MAPFInstance)
    (h : ∃ i, i < inst.startLocs.length ∧ ll i [] = none) (counter : Int) (fuel : Nat) :
    ∃ tr, solve ll inst fuel = some ⟨Except.error NoSolutionException.mk, tr⟩
      ∧ safeSolve ll inst counter fuel = some ⟨none, counter, tr⟩
      ∧ (∀ e, e ∈ tr → e.isRootPlan = true)
      ∧ replanCount tr = 0 ∧ expansionCount tr = 0 := by
  obtain ⟨i, hi, hll⟩ := h
  have hfail := planRoot_fails ll (List.range inst.startLocs.length)
    (List.replicate inst.numAgents []) [] ⟨i, List.mem_range.mpr hi, hll⟩
  obtain ⟨evs, hevs, hall⟩ := planRoot_trace ll (List.range inst.startLocs.length)
    (List.replicate inst.numAgents []) []
  refine ⟨evs, ?_, ?_, hall, ?_, ?_⟩
  · unfold solve
    split
    · next tr heq =>
      rw [heq] at hevs
      simp only [List.nil_append] at hevs
      rw [hevs]
    · next paths tr heq =>
      rw [heq] at hfail
      cases hfail
  · unfold safeSolve
    split
    · next tr heq =>
      rw [heq] at hevs
      simp only [List.nil_append] at hevs
      rw [hevs]
    · next paths tr heq =>
      rw [heq] at hfail
      cases hfail
  · unfold replanCount
    rw [List.countP_eq_zero]
    intro e he
    have := hall e he
    cases e <;> simp_all [Event.isRootPlan, Event.isReplan]
  · unfold expansionCount
    rw [List.countP_eq_zero]
    intro e he
    have := hall e he
    cases e <;> simp_all [Event.isRootPlan, Event.isExpansion]

theorem solve_fails_at_root_witness :
    (∃ i, i < (⟨1, 1, [[true]], 1, [⟨0, 0⟩], [⟨0, 0⟩]⟩ : MAPFInstance).startLocs.length
        ∧ (fun _ _ => none : LowLevel) i [] = none)
    ∧ ∃ tr, solve (fun _ _ => none) ⟨1, 1, [[true]], 1, [⟨0, 0⟩], [⟨0, 0⟩]⟩ 7
          = some ⟨Except.error NoSolutionException.mk, tr⟩
        ∧ safeSolve (fun _ _ => none) ⟨1, 1, [[true]], 1, [⟨0, 0⟩], [⟨0, 0⟩]⟩ 5 7
          = some ⟨none, 5, tr⟩
        ∧ (∀ e, e ∈ tr → e.isRootPlan = true)
        ∧ replanCount tr = 0 ∧ expansionCount tr = 0 :=
  ⟨⟨0, by decide, rfl⟩,
    solve_fails_at_root (fun _ _ => none) ⟨1, 1, [[true]], 1, [⟨0, 0⟩], [⟨0, 0⟩]⟩
      ⟨0, by decide, rfl⟩ 5 7⟩

/-- C3: `solve` and `safeSolve` run the same search.  With the same fuel, one
runs out of fuel exactly when the other does; `solve` returns the paths `P`
exactly when `safeSolve` returns a node whose paths are `P`; `solve` throws
`NoSolutionException` exactly when `safeSolve` returns no node; and the two
runs have the same trace. -/
theorem solve_iff_safeSolve (ll : LowLevel) (inst : MAPFInstance) (counter : Int)
    (fuel : Nat) :
    (solve ll inst fuel = none ↔ safeSolve ll inst counter fuel = none)
    ∧ (∀ P tr, solve ll inst fuel = some ⟨Except.ok P, tr⟩
        ↔ ∃ node c, safeSolve ll inst counter fuel = some ⟨some node, c, tr⟩ ∧ node.paths = P)
    ∧ (∀ tr, solve ll inst fuel = some ⟨Except.error NoSolutionException.mk, tr⟩
        ↔ ∃ c, safeSolve ll inst counter fuel = some ⟨none, c, tr⟩) := by
  rw [solve_eq_safeSolve ll inst counter fuel]
  cases safeSolve ll inst counter fuel with
  | none => simp
  | some run =>
    obtain ⟨result, c, rtr⟩ := run
    cases result with
    | none => simp [SafeSolveRun.toSolveRun]
    | some node =>
      simp only [Option.map_some', SafeSolveRun.toSolveRun, reduceCtorEq, false_iff,
        Option.some.injEq, SolveRun.mk.injEq, Except.ok.injEq, SafeSolveRun.mk.injEq,
        false_and, exists_false, iff_false, not_false_eq_true, implies_true, and_true,
        true_and, and_false]
      intro P tr
      constructor
      · rintro ⟨h1, h2⟩
        exact ⟨node, c, ⟨rfl, rfl, h2⟩, h1⟩
      · rintro ⟨n, c2, ⟨h1, _, h3⟩, h4⟩
        subst h1
        exact ⟨h4, h3⟩

/-! ## Fuel -/

theorem safeSolveLoop_fuel_mono (ll : LowLevel) (fuel : Nat) (pq : List CTNode)
    (counter : Int) (tr : List Event) (run : SafeSolveRun)
    (h : safeSolveLoop ll fuel pq counter tr = some run) (more : Nat) :
    safeSolveLoop ll (fuel + more) pq counter tr = some run := by
  induction fuel generalizing pq counter tr with
  | zero => simp [safeSolveLoop] at h
  | succ fuel ih =>
    rw [Nat.add_right_comm]
    unfold safeSolveLoop at h ⊢
    cases hpop : pqPop pq with
    | none => rw [hpop] at h; exact h
    | some p =>
      obtain ⟨cur, rest⟩ := p
      rw [hpop] at h
      simp only at h ⊢
      cases hcl : cur.collisionList with
      | nil => rw [hcl] at h; exact h
      | cons col cols =>
        rw [hcl] at h
        simp only at h ⊢
        exact ih _ _ _ h

theorem safeSolve_fuel_mono (ll : LowLevel) (inst : MAPFInstance) (counter : Int)
    (fuel : Nat) (run : SafeSolveRun) (h : safeSolve ll inst counter fuel = some run)
    (more : Nat) : safeSolve ll inst counter (fuel + more) = some run := by
  unfold safeSolve at h ⊢
  split
  · next tr heq => rw [heq] at h; exact h
  · next paths tr heq =>
    rw [heq] at h
    exact safeSolveLoop_fuel_mono ll fuel _ _ _ run h more

/-! ## The counter of `safeSolve` -/

theorem replanCount_append (tr evs : List Event) :
    replanCount (tr ++ evs) = replanCount tr + replanCount evs := by
  simp [replanCount, List.countP_append]

theorem expansionCount_append (tr evs : List Event) :
    expansionCount (tr ++ evs) = expansionCount tr + expansionCount evs := by
  simp [expansionCount, List.countP_append]

theorem safeSolveChild_counts (ll : LowLevel) (cur : CTNode) (c : Constraint)
    (pq : List CTNode) (counter : Int) (tr : List Event) :
    (safeSolveChild ll cur c pq counter tr).2.1 = counter + 1
    ∧ replanCount (safeSolveChild ll cur c pq counter tr).2.2 = replanCount tr + 1
    ∧ expansionCount (safeSolveChild ll cur c pq counter tr).2.2 = expansionCount tr := by
  unfold safeSolveChild
  cases h : ll c.agentNum (cur.constraintList ++ [c]) <;>
    simp [h, replanCount, expansionCount, List.countP_append, List.countP_cons,
      Event.isReplan, Event.isExpansion]

theorem safeSolveExpand_counts (ll : LowLevel) (cur : CTNode) (cs : List Constraint)
    (pq : List CTNode) (counter : Int) (tr : List Event) :
    (safeSolveExpand ll cur cs pq counter tr).2.1 = counter + cs.length
    ∧ replanCount (safeSolveExpand ll cur cs pq counter tr).2.2 = replanCount tr + cs.length
    ∧ expansionCount (safeSolveExpand ll cur cs pq counter tr).2.2 = expansionCount tr := by
  induction cs generalizing pq counter tr with
  | nil => simp [safeSolveExpand]
  | cons c cs ih =>
    obtain ⟨h1, h2, h3⟩ := safeSolveChild_counts ll cur c pq counter tr
    unfold safeSolveExpand
    obtain ⟨i1, i2, i3⟩ := ih (safeSolveChild ll cur c pq counter tr).1
      (safeSolveChild ll cur c pq counter tr).2.1 (safeSolveChild ll cur c pq counter tr).2.2
    refine ⟨?_, ?_, ?_⟩
    · rw [i1, h1]
      simp only [List.length_cons, Nat.cast_add, Nat.cast_one]
      omega
    · rw [i2, h2]
      simp only [List.length_cons]
      omega
    · rw [i3, h3]

theorem resolveCollision_length (col : Collision) : (resolveCollision col).length = 2 := by
  unfold resolveCollision
  split <;> rfl

theorem safeSolveLoop_counts (ll : LowLevel) (fuel : Nat) (pq : List CTNode)
    (counter : Int) (tr : List Event) (run : SafeSolveRun)
    (h : safeSolveLoop ll fuel pq counter tr = some run) :
    run.counter + replanCount tr = counter + replanCount run.trace
    ∧ replanCount run.trace + 2 * expansionCount tr
        = replanCount tr + 2 * expansionCount run.trace := by
  induction fuel generalizing pq counter tr with
  | zero => simp [safeSolveLoop] at h
  | succ fuel ih =>
    unfold safeSolveLoop at h
    cases hpop : pqPop pq with
    | none =>
      rw [hpop] at h
      cases h
      simp
    | some p =>
      obtain ⟨cur, rest⟩ := p
      rw [hpop] at h
      simp only at h
      cases hcl : cur.collisionList with
      | nil =>
        rw [hcl] at h
        cases h
        simp [replanCount, expansionCount, List.countP_append, List.countP_cons,
          Event.isReplan, Event.isExpansion, hcl]
      | cons col cols =>
        rw [hcl] at h
        simp only at h
        obtain ⟨i1, i2⟩ := ih _ _ _ h
        obtain ⟨e1, e2, e3⟩ := safeSolveExpand_counts ll cur (resolveCollision col) rest counter
          (tr ++ [Event.pop cur])
        rw [e1, e2] at i1
        rw [e2, e3] at i2
        rw [resolveCollision_length] at i1 i2
        have hr : replanCount (tr ++ [Event.pop cur]) = replanCount tr := by
          simp [replanCount, List.countP_append, List.countP_cons, Event.isReplan]
        have he : expansionCount (tr ++ [Event.pop cur]) = expansionCount tr + 1 := by
          simp [expansionCount, List.countP_append, List.countP_cons, Event.isExpansion, hcl]
        rw [hr] at i1 i2
        rw [he] at i2
        constructor
        · push_cast at i1 ⊢
          omega
        · omega

theorem planRoot_counts (ll : LowLevel) (agents : List Nat) (paths : List (List Point2))
    (tr : List Event) :
    replanCount (planRoot ll agents paths tr).2 = replanCount tr
    ∧ expansionCount (planRoot ll agents paths tr).2 = expansionCount tr := by
  obtain ⟨evs, hevs, hall⟩ := planRoot_trace ll agents paths tr
  rw [hevs, replanCount_append, expansionCount_append]
  have h1 : replanCount evs = 0 := by
    unfold replanCount
    rw [List.countP_eq_zero]
    intro e he
    have := hall e he
    cases e <;> simp_all [Event.isRootPlan, Event.isReplan]
  have h2 : expansionCount evs = 0 := by
    unfold expansionCount
    rw [List.countP_eq_zero]
    intro e he
    have := hall e he
    cases e <;> simp_all [Event.isRootPlan, Event.isExpansion]
  omega

/-- C10: in every run of `safeSolve` that terminates, the final counter is the
initial counter plus the number of child replans attempted (successful or
not), and that number is twice the number of nodes popped with a non-empty
`collisionList`. -/
theorem safeSolve_counter (ll : LowLevel) (inst : MAPFInstance) (counter : Int) (fuel : Nat)
    (run : SafeSolveRun) (h : safeSolve ll inst counter fuel = some run) :
    run.counter = counter + replanCount run.trace
    ∧ replanCount run.trace = 2 * expansionCount run.trace := by
  unfold safeSolve at h
  have hroot := planRoot_counts ll (List.range inst.startLocs.length)
    (List.replicate inst.numAgents []) []
  split at h
  · next tr heq =>
    rw [heq] at hroot
    cases h
    obtain ⟨r1, r2⟩ := hroot
    have z1 : replanCount [] = 0 := rfl
    have z2 : expansionCount [] = 0 := rfl
    simp only at r1 r2 ⊢
    rw [r1, r2, z1, z2]
    simp
  · next paths tr heq =>
    rw [heq] at hroot
    obtain ⟨r1, r2⟩ := hroot
    have z1 : replanCount [] = 0 := rfl
    have z2 : expansionCount [] = 0 := rfl
    simp only at r1 r2
    obtain ⟨h1, h2⟩ := safeSolveLoop_counts ll fuel _ _ _ run h
    have p1 : ∀ n : CTNode, replanCount [Event.push n] = 0 := fun _ => rfl
    have p2 : ∀ n : CTNode, expansionCount [Event.push n] = 0 := fun _ => rfl
    rw [replanCount_append, p1, r1, z1] at h1 h2
    rw [expansionCount_append, p2, r2, z2] at h2
    constructor
    · push_cast at h1
      omega
    · omega


theorem safeSolve_counter_witness :
    safeSolve crossLL crossInstance 0 3 = some crossRun
    ∧ crossRun.counter = 2
    ∧ crossRun.counter = 0 + replanCount crossRun.trace
    ∧ replanCount crossRun.trace = 2 * expansionCount crossRun.trace :=
  ⟨rfl, rfl, safeSolve_counter crossLL crossInstance 0 3 crossRun rfl⟩

/-! ## `detectCollisions` -/

theorem detectCollision_agents {i j : Nat} {pathA pathB : List Point2} {col : Collision}
    (h : detectCollision i j pathA pathB = some col) : col.agent1 = i ∧ col.agent2 = j := by
  obtain ⟨t, _, hat, _⟩ := (detectCollision_eq_some_iff i j pathA pathB col).mp h
  unfold detectCollisionAt at hat
  split at hat
  · cases hat; exact ⟨rfl, rfl⟩
  · split at hat
    · cases hat; exact ⟨rfl, rfl⟩
    · cases hat

theorem mem_detectCollisions (paths : List (List Point2)) (col : Collision) :
    col ∈ detectCollisions paths
      ↔ ∃ i j, i < j ∧ j < paths.length
          ∧ detectCollision i j (paths.getD i []) (paths.getD j []) = some col := by
  unfold detectCollisions outerBound
  simp only [List.mem_flatMap, List.mem_range, List.mem_filterMap, List.mem_range'_1]
  constructor
  · rintro ⟨i, _, j, ⟨h1, h2⟩, hdet⟩
    exact ⟨i, j, by omega, by omega, hdet⟩
  · rintro ⟨i, j, hij, hj, hdet⟩
    refine ⟨i, ?_, j, ⟨by omega, by omega⟩, hdet⟩
    split <;> omega

theorem detectCollisions_eq_nil_iff (paths : List (List Point2)) :
    detectCollisions paths = []
      ↔ ∀ i j, i < j → j < paths.length →
          detectCollision i j (paths.getD i []) (paths.getD j []) = none := by
  rw [List.eq_nil_iff_forall_not_mem]
  simp only [mem_detectCollisions]
  constructor
  · intro h i j hij hj
    cases hd : detectCollision i j (paths.getD i []) (paths.getD j []) with
    | none => rfl
    | some col => exact absurd ⟨i, j, hij, hj, hd⟩ (h col)
  · rintro h col ⟨i, j, hij, hj, hd⟩
    rw [h i j hij hj] at hd
    cases hd

theorem resolveCollision_agentNum {col : Collision} {c : Constraint}
    (h : c ∈ resolveCollision col) : c.agentNum = col.agent1 ∨ c.agentNum = col.agent2 := by
  unfold resolveCollision at h
  split at h <;>
  · simp only [List.mem_cons, List.mem_singleton, List.not_mem_nil, or_false] at h
    rcases h with h | h <;> subst h <;> simp

/-- The agents of a constraint resolved from a detected collision are indices
into `paths`. -/
theorem resolved_agent_lt {paths : List (List Point2)} {col : Collision} {c : Constraint}
    (hcol : col ∈ detectCollisions paths) (hc : c ∈ resolveCollision col) :
    c.agentNum < paths.length := by
  obtain ⟨i, j, hij, hj, hdet⟩ := (mem_detectCollisions paths col).mp hcol
  obtain ⟨h1, h2⟩ := detectCollision_agents hdet
  rcases resolveCollision_agentNum hc with h | h <;> omega

theorem NoConflictAt_symm {pathA pathB : List Point2} {t : Nat}
    (h : NoConflictAt pathA pathB t) : NoConflictAt pathB pathA t := by
  unfold NoConflictAt at *
  exact ⟨fun e => h.1 e.symm, fun e => h.2 ⟨e.2.symm, e.1.symm⟩⟩

/-- Past the end of both paths nothing changes: no conflict below
`max(len A, len B)` means no conflict at any time. -/
theorem NoConflictAt_of_lt_max {pathA pathB : List Point2} (hA : pathA ≠ [])
    (h : ∀ t, t < max pathA.length pathB.length → NoConflictAt pathA pathB t) (t : Nat) :
    NoConflictAt pathA pathB t := by
  have hlA : 0 < pathA.length := List.length_pos.mpr hA
  by_cases ht : t < max pathA.length pathB.length
  · exact h t ht
  · have hm : max pathA.length pathB.length - 1 < max pathA.length pathB.length := by
      have : pathA.length ≤ max pathA.length pathB.length := Nat.le_max_left _ _
      omega
    have hlast := h _ hm
    have hA1 : pathA.length ≤ max pathA.length pathB.length := Nat.le_max_left _ _
    have hB1 : pathB.length ≤ max pathA.length pathB.length := Nat.le_max_right _ _
    have eA : ∀ u, max pathA.length pathB.length - 1 ≤ u →
        holdAtGoal pathA u = holdAtGoal pathA (pathA.length - 1) :=
      fun u hu => holdAtGoal_of_le pathA (by omega)
    have eB : ∀ u, max pathA.length pathB.length - 1 ≤ u →
        holdAtGoal pathB u = holdAtGoal pathB (pathB.length - 1) :=
      fun u hu => holdAtGoal_of_le pathB (by omega)
    unfold NoConflictAt at hlast ⊢
    rw [eA t (by omega), eB t (by omega), eA (t + 1) (by omega), eB (t + 1) (by omega)]
    rw [eA _ (Nat.le_refl _), eB _ (Nat.le_refl _), eA (_ + 1) (by omega),
      eB (_ + 1) (by omega)] at hlast
    exact hlast

theorem collisionFree_of_detectCollisions_nil {paths : List (List Point2)}
    (hne : ∀ p, p ∈ paths → p ≠ []) (h : detectCollisions paths = []) :
    CollisionFree paths := by
  rw [detectCollisions_eq_nil_iff] at h
  have key : ∀ i j, i < j → j < paths.length → ∀ t,
      NoConflictAt (paths.getD i []) (paths.getD j []) t := by
    intro i j hij hj t
    have hi : i < paths.length := by omega
    have hA : paths.getD i [] ≠ [] := by
      rw [List.getD_eq_getElem _ _ hi]
      exact hne _ (List.getElem_mem hi)
    exact NoConflictAt_of_lt_max hA ((detectCollision_eq_none_iff i j _ _).mp (h i j hij hj)) t
  intro i j hi hj hne t
  rcases Nat.lt_or_gt_of_ne hne with hlt | hgt
  · exact key i j hlt hj t
  · exact NoConflictAt_symm (key j i hgt hi t)

/-! ## Invariants of the nodes on the frontier -/

theorem solveChild_eq_childNode {ll : LowLevel} {cur : CTNode} {c : Constraint}
    {path : List Point2} (h : ll c.agentNum (cur.constraintList ++ [c]) = some path)
    (pq : List CTNode) (tr : List Event) :
    (solveChild ll cur c pq tr).1 = pqPush pq (childNode cur c path) := by
  rw [solveChild_some h]
  rfl

theorem solveChild_inv (ll : LowLevel) (Inv : CTNode → Prop) (cur : CTNode) (c : Constraint)
    (pq : List CTNode) (tr : List Event)
    (hchild : ∀ path, ll c.agentNum (cur.constraintList ++ [c]) = some path →
      Inv (childNode cur c path))
    (hpq : ∀ n, n ∈ pq → Inv n) :
    ∀ n, n ∈ (solveChild ll cur c pq tr).1 → Inv n := by
  intro n hn
  cases h : ll c.agentNum (cur.constraintList ++ [c]) with
  | none =>
    rw [solveChild_none h] at hn
    exact hpq n hn
  | some path =>
    rw [solveChild_eq_childNode h] at hn
    simp only [pqPush, List.mem_append, List.mem_singleton] at hn
    rcases hn with hn | hn
    · exact hpq n hn
    · subst hn
      exact hchild path h

theorem solveExpand_inv (ll : LowLevel) (Inv : CTNode → Prop) (cur : CTNode)
    (cs : List Constraint) (pq : List CTNode) (tr : List Event)
    (hchild : ∀ c, c ∈ cs → ∀ path, ll c.agentNum (cur.constraintList ++ [c]) = some path →
      Inv (childNode cur c path))
    (hpq : ∀ n, n ∈ pq → Inv n) :
    ∀ n, n ∈ (solveExpand ll cur cs pq tr).1 → Inv n := by
  induction cs generalizing pq tr with
  | nil => simpa [solveExpand] using hpq
  | cons c cs ih =>
    unfold solveExpand
    apply ih
    · intro c2 hc2
      exact hchild c2 (List.mem_cons_of_mem _ hc2)
    · exact solveChild_inv ll Inv cur c pq tr (hchild c (List.mem_cons_self _ _)) hpq

/-- A property of nodes that holds on the frontier and passes from an expanded
node to the children pushed holds for the node that `safeSolve` returns; that
node has no collisions and is the last node popped. -/
theorem safeSolveLoop_inv (ll : LowLevel) (Inv : CTNode → Prop)
    (hchild : ∀ cur col cols c path, Inv cur → cur.collisionList = col :: cols →
      c ∈ resolveCollision col → ll c.agentNum (cur.constraintList ++ [c]) = some path →
      Inv (childNode cur c path))
    (fuel : Nat) (pq : List CTNode) (counter : Int) (tr : List Event) (run : SafeSolveRun)
    (hpq : ∀ n, n ∈ pq → Inv n)
    (h : safeSolveLoop ll fuel pq counter tr = some run) :
    ∀ node, run.result = some node →
      Inv node ∧ node.collisionList = [] ∧ run.trace.getLast? = some (Event.pop node) := by
  induction fuel generalizing pq counter tr with
  | zero => simp [safeSolveLoop] at h
  | succ fuel ih =>
    unfold safeSolveLoop at h
    cases hpop : pqPop pq with
    | none =>
      rw [hpop] at h
      cases h
      intro node hnode
      cases hnode
    | some p =>
      obtain ⟨cur, rest⟩ := p
      rw [hpop] at h
      simp only at h
      obtain ⟨hmem, _, _, _⟩ := pqPop_some hpop
      cases hcl : cur.collisionList with
      | nil =>
        rw [hcl] at h
        cases h
        intro node hnode
        cases hnode
        exact ⟨hpq _ hmem, hcl, by simp⟩
      | cons col cols =>
        rw [hcl] at h
        simp only at h
        refine ih _ _ _ ?_ h
        rw [(safeSolveExpand_eq ll cur (resolveCollision col) rest counter
          (tr ++ [Event.pop cur])).1]
        apply solveExpand_inv ll Inv cur
        · intro c hc path hpath
          exact hchild cur col cols c path (hpq _ hmem) hcl hc hpath
        · intro n hn
          exact hpq n (pqPop_rest_subset hpop n hn)

/-- The same for the whole of `safeSolve`, from the root node. -/
theorem safeSolve_inv (ll : LowLevel) (inst : MAPFInstance) (Inv : CTNode → Prop)
    (hroot : ∀ paths tr,
      planRoot ll (List.range inst.startLocs.length) (List.replicate inst.numAgents []) []
        = (some paths, tr) →
      Inv { cost := 0, paths := paths, collisionList := detectCollisions paths,
            constraintList := [], id := 0 })
    (hchild : ∀ cur col cols c path, Inv cur → cur.collisionList = col :: cols →
      c ∈ resolveCollision col → ll c.agentNum (cur.constraintList ++ [c]) = some path →
      Inv (childNode cur c path))
    (counter : Int) (fuel : Nat) (run : SafeSolveRun)
    (h : safeSolve ll inst counter fuel = some run) :
    ∀ node, run.result = some node →
      Inv node ∧ node.collisionList = [] ∧ run.trace.getLast? = some (Event.pop node) := by
  unfold safeSolve at h
  split at h
  · next tr heq =>
    cases h
    intro node hnode
    cases hnode
  · next paths tr heq =>
    refine safeSolveLoop_inv ll Inv hchild fuel _ counter _ run ?_ h
    intro n hn
    simp only [pqPush, List.nil_append, List.mem_singleton] at hn
    subst hn
    exact hroot paths tr heq

theorem planRoot_paths (ll : LowLevel) (agents : List Nat) (paths : List (List Point2))
    (tr : List Event) (result : List (List Point2))
    (h : (planRoot ll agents paths tr).1 = some result) :
    result.length = paths.length
    ∧ ∀ k, k < paths.length →
        (k ∈ agents → ll k [] = some (result.getD k []))
        ∧ (k ∉ agents → result.getD k [] = paths.getD k []) := by
  induction agents generalizing paths tr with
  | nil =>
    simp only [planRoot, Option.some.injEq] at h
    subst h
    simp
  | cons i rest ih =>
    unfold planRoot at h
    cases hi : ll i [] with
    | none => rw [hi] at h; cases h
    | some path =>
      rw [hi] at h
      simp only at h
      obtain ⟨hlen, hk⟩ := ih _ _ h
      rw [List.length_set] at hlen hk
      refine ⟨hlen, fun k hkl => ⟨fun hmem => ?_, fun hnot => ?_⟩⟩
      · by_cases hr : k ∈ rest
        · exact (hk k hkl).1 hr
        · have hki : k = i := by
            simp only [List.mem_cons] at hmem
            tauto
          subst hki
          rw [(hk k hkl).2 hr, List.getD_eq_getElem?_getD, List.getElem?_set_self hkl]
          exact hi
      · simp only [List.mem_cons, not_or] at hnot
        rw [(hk k hkl).2 hnot.2, List.getD_eq_getElem?_getD, List.getD_eq_getElem?_getD,
          List.getElem?_set_ne (Ne.symm hnot.1)]

/-! ## The accepted node -/

theorem solve_ok_iff (ll : LowLevel) (inst : MAPFInstance) (counter : Int) (fuel : Nat)
    (P : List (List Point2)) (tr : List Event)
    (h : solve ll inst fuel = some ⟨Except.ok P, tr⟩) :
    ∃ run node, safeSolve ll inst counter fuel = some run ∧ run.result = some node
      ∧ node.paths = P ∧ run.trace = tr := by
  rw [solve_eq_safeSolve ll inst counter fuel] at h
  cases hs : safeSolve ll inst counter fuel with
  | none => rw [hs] at h; cases h
  | some run =>
    rw [hs] at h
    obtain ⟨result, c, rtr⟩ := run
    cases result with
    | none => simp [SafeSolveRun.toSolveRun] at h
    | some node =>
      simp only [Option.map_some', SafeSolveRun.toSolveRun, Option.some.injEq,
        SolveRun.mk.injEq, Except.ok.injEq] at h
      exact ⟨_, node, rfl, rfl, h.1, h.2⟩

/-- C1: for an instance with `numAgents ≥ 1` start cells and a low-level
solver whose paths are non-empty, the node that `safeSolve` returns and the
paths that `solve` returns hold exactly `numAgents` paths, and any two
distinct agents are never in the same cell at a time `t` and never swap cells
between `t` and `t + 1`, for every `t ≥ 0` under the hold-at-goal location;
the node returned has an empty `collisionList`. -/
theorem solve_result_collision_free (ll : LowLevel) (inst : MAPFInstance)
    (hinst : inst.startLocs.length = inst.numAgents) (_ : 1 ≤ inst.numAgents)
    (hll : ∀ a cs p, ll a cs = some p → p ≠ []) (counter : Int) (fuel : Nat) :
    (∀ run node, safeSolve ll inst counter fuel = some run → run.result = some node →
        node.paths.length = inst.numAgents ∧ CollisionFree node.paths
        ∧ node.collisionList = [])
    ∧ (∀ P tr, solve ll inst fuel = some ⟨Except.ok P, tr⟩ →
        P.length = inst.numAgents ∧ CollisionFree P) := by
  have main : ∀ run node, safeSolve ll inst counter fuel = some run →
      run.result = some node →
      node.paths.length = inst.numAgents ∧ CollisionFree node.paths
        ∧ node.collisionList = [] := by
    intro run node hrun hnode
    have hinv := safeSolve_inv ll inst
      (fun n => n.paths.length = inst.numAgents ∧ (∀ p, p ∈ n.paths → p ≠ [])
        ∧ n.collisionList = detectCollisions n.paths)
      ?_ ?_ counter fuel run hrun node hnode
    · obtain ⟨⟨hlen, hne, hcl⟩, hnil, _⟩ := hinv
      exact ⟨hlen, collisionFree_of_detectCollisions_nil hne (hcl ▸ hnil), hnil⟩
    · intro paths tr hplan
      have hp := planRoot_paths ll _ _ [] paths (by rw [hplan])
      rw [List.length_replicate] at hp
      obtain ⟨hlen, hk⟩ := hp
      refine ⟨hlen, ?_, rfl⟩
      intro p hp
      simp only at hp
      obtain ⟨k, hkl, hkp⟩ := List.getElem_of_mem hp
      have hk2 := (hk k (by omega)).1 (List.mem_range.mpr (by omega))
      rw [List.getD_eq_getElem _ _ hkl, hkp] at hk2
      exact hll _ _ _ hk2
    · intro cur col cols c path hcur _ _ hpath
      obtain ⟨hlen, hne, _⟩ := hcur
      refine ⟨by simp [childNode, hlen], ?_, rfl⟩
      intro p hp
      simp only [childNode] at hp
      rcases List.mem_or_eq_of_mem_set hp with h | h
      · exact hne p h
      · subst h
        exact hll _ _ _ hpath
  refine ⟨main, ?_⟩
  intro P tr hsolve
  obtain ⟨run, node, hrun, hnode, hP, _⟩ := solve_ok_iff ll inst counter fuel P tr hsolve
  obtain ⟨h1, h2, _⟩ := main run node hrun hnode
  subst hP
  exact ⟨h1, h2⟩

theorem crossLL_mem {agent : Nat} {cs : List Constraint} {p : List Point2}
    (h : crossLL agent cs = some p) : p ∈ crossCandidates agent :=
  List.mem_of_find?_eq_some h

theorem crossLL_nonempty (agent : Nat) (cs : List Constraint) (p : List Point2)
    (h : crossLL agent cs = some p) : p ≠ [] := by
  have hm := crossLL_mem h
  unfold crossCandidates at hm
  split at hm
  · simp only [List.mem_cons, List.mem_singleton, List.not_mem_nil, or_false] at hm
    rcases hm with hm | hm <;> subst hm <;> simp
  · simp only [List.mem_cons, List.mem_singleton, List.not_mem_nil, or_false] at hm
    rcases hm with hm | hm <;> subst hm <;> simp
  · cases hm

theorem solve_result_collision_free_witness :
    crossInstance.startLocs.length = crossInstance.numAgents
    ∧ 1 ≤ crossInstance.numAgents
    ∧ safeSolve crossLL crossInstance 0 3 = some crossRun
    ∧ crossRun.result = some crossChild0
    ∧ crossChild0.paths.length = crossInstance.numAgents
    ∧ CollisionFree crossChild0.paths
    ∧ crossChild0.collisionList = [] :=
  ⟨rfl, by decide, rfl, rfl,
    (solve_result_collision_free crossLL crossInstance rfl (by decide) crossLL_nonempty 0 3).1
      crossRun crossChild0 rfl rfl⟩

/-- C4: let the low-level solver meet its contract for a notion `Violates` of a
path violating a constraint (on success its path for agent `a` violates no
constraint of the list passed whose `agentNum` is `a`).  Then in the node that
`safeSolve` returns, and in the node popped last whose paths `solve` returns,
every constraint of `constraintList` names an agent of the node and is not
violated by the path that the node holds for that agent. -/
theorem accepted_node_honours_constraints (ll : LowLevel) (inst : MAPFInstance)
    (Violates : List Point2 → Constraint → Prop)
    (hll : ∀ a cs p, ll a cs = some p → ∀ c, c ∈ cs → c.agentNum = a → ¬ Violates p c)
    (counter : Int) (fuel : Nat) :
    (∀ run node, safeSolve ll inst counter fuel = some run → run.result = some node →
        ∀ c, c ∈ node.constraintList →
          c.agentNum < node.paths.length ∧ ¬ Violates (node.paths.getD c.agentNum []) c)
    ∧ (∀ P tr, solve ll inst fuel = some ⟨Except.ok P, tr⟩ →
        ∃ node, tr.getLast? = some (Event.pop node) ∧ node.paths = P
          ∧ ∀ c, c ∈ node.constraintList →
              c.agentNum < node.paths.length
              ∧ ¬ Violates (node.paths.getD c.agentNum []) c) := by
  have main : ∀ run node, safeSolve ll inst counter fuel = some run →
      run.result = some node →
      (∀ c, c ∈ node.constraintList →
          c.agentNum < node.paths.length ∧ ¬ Violates (node.paths.getD c.agentNum []) c)
      ∧ run.trace.getLast? = some (Event.pop node) := by
    intro run node hrun hnode
    have hinv := safeSolve_inv ll inst
      (fun n => n.collisionList = detectCollisions n.paths
        ∧ ∀ c, c ∈ n.constraintList →
            c.agentNum < n.paths.length ∧ ¬ Violates (n.paths.getD c.agentNum []) c)
      ?_ ?_ counter fuel run hrun node hnode
    · exact ⟨hinv.1.2, hinv.2.2⟩
    · intro paths tr _
      exact ⟨rfl, fun c hc => by cases hc⟩
    · intro cur col cols c path hcur hcl hc hpath
      obtain ⟨hdet, hcons⟩ := hcur
      have hcol : col ∈ detectCollisions cur.paths := by
        rw [← hdet, hcl]
        exact List.mem_cons_self _ _
      have hlt : c.agentNum < cur.paths.length := resolved_agent_lt hcol hc
      refine ⟨rfl, ?_⟩
      intro c2 hc2
      simp only [childNode, List.length_set] at hc2 ⊢
      by_cases hag : c2.agentNum = c.agentNum
      · refine ⟨by omega, ?_⟩
        rw [hag, List.getD_eq_getElem?_getD, List.getElem?_set_self hlt]
        exact hll _ _ _ hpath c2 hc2 hag
      · have hc2cur : c2 ∈ cur.constraintList := by
          simp only [List.mem_append, List.mem_singleton] at hc2
          rcases hc2 with h | h
          · exact h
          · subst h; exact absurd rfl hag
        obtain ⟨h1, h2⟩ := hcons c2 hc2cur
        refine ⟨h1, ?_⟩
        rw [List.getD_eq_getElem?_getD, List.getElem?_set_ne (Ne.symm hag),
          ← List.getD_eq_getElem?_getD]
        exact h2
  refine ⟨fun run node hrun hnode => (main run node hrun hnode).1, ?_⟩
  intro P tr hsolve
  obtain ⟨run, node, hrun, hnode, hP, htr⟩ := solve_ok_iff ll inst counter fuel P tr hsolve
  obtain ⟨h1, h2⟩ := main run node hrun hnode
  exact ⟨node, htr ▸ h2, hP, h1⟩

theorem crossLL_contract (a : Nat) (cs : List Constraint) (p : List Point2)
    (h : crossLL a cs = some p) (c : Constraint) (hc : c ∈ cs) (hca : c.agentNum = a) :
    ¬ violates p c = true := by
  have hp := List.find?_some h
  simp only [List.all_eq_true, Bool.or_eq_true, decide_eq_true_eq, Bool.not_eq_true'] at hp
  rcases hp c hc with h1 | h1
  · exact absurd hca h1
  · simp [h1]

theorem accepted_node_honours_constraints_witness :
    safeSolve crossLL crossInstance 0 3 = some crossRun
    ∧ crossRun.result = some crossChild0
    ∧ ∀ c, c ∈ crossChild0.constraintList →
        c.agentNum < crossChild0.paths.length
        ∧ ¬ violates (crossChild0.paths.getD c.agentNum []) c = true :=
  ⟨rfl, rfl,
    (accepted_node_honours_constraints crossLL crossInstance (fun p c => violates p c = true)
      crossLL_contract 0 3).1 crossRun crossChild0 rfl rfl⟩

/-! ## The comparator as an ordering -/

/-- C19: `CTNodeComparator` is a strict weak ordering: it is irreflexive and
transitive, two nodes are incomparable (neither is put before the other)
exactly when they have equal cost, equal `collisionList` size and equal id,
and incomparability is transitive. -/
theorem CTNodeComparator_strict_weak_order :
    (∀ a, CTNodeComparator a a = false)
    ∧ (∀ a b c, CTNodeComparator a b = true → CTNodeComparator b c = true →
        CTNodeComparator a c = true)
    ∧ (∀ a b, (CTNodeComparator a b = false ∧ CTNodeComparator b a = false)
        ↔ (a.cost = b.cost ∧ a.collisionList.length = b.collisionList.length
            ∧ a.id = b.id))
    ∧ (∀ a b c, (CTNodeComparator a b = false ∧ CTNodeComparator b a = false) →
        (CTNodeComparator b c = false ∧ CTNodeComparator c b = false) →
        (CTNodeComparator a c = false ∧ CTNodeComparator c a = false)) := by
  have key : ∀ a b, CTNodeComparator a b = true ↔ ¬ PopsNoLaterThan a b := by
    intro a b
    rw [← CTNodeComparator_eq_false_iff]
    cases CTNodeComparator a b <;> simp
  refine ⟨?_, ?_, ?_, ?_⟩
  · intro a
    rw [CTNodeComparator_eq_false_iff]
    unfold PopsNoLaterThan
    omega
  · intro a b c
    simp only [key]
    unfold PopsNoLaterThan
    omega
  · intro a b
    simp only [CTNodeComparator_eq_false_iff]
    unfold PopsNoLaterThan
    omega
  · intro a b c
    simp only [CTNodeComparator_eq_false_iff]
    unfold PopsNoLaterThan
    omega

theorem CTNodeComparator_strict_weak_order_witness :
    CTNodeComparator ⟨9, [], [], [], 0⟩ ⟨7, [], [], [], 1⟩ = true
    ∧ CTNodeComparator ⟨7, [], [], [], 1⟩ ⟨7, [], [], [], 0⟩ = true
    ∧ CTNodeComparator ⟨9, [], [], [], 0⟩ ⟨7, [], [], [], 0⟩ = true :=
  ⟨by decide, by decide,
    CTNodeComparator_strict_weak_order.2.1 ⟨9, [], [], [], 0⟩ ⟨7, [], [], [], 1⟩
      ⟨7, [], [], [], 0⟩ (by decide) (by decide)⟩

/-! ## Symmetry of `detectCollision` -/

theorem detectCollisionAt_swap (a b : Nat) (pathA pathB : List Point2) (t : Nat) :
    detectCollisionAt b a pathB pathA t
      = (detectCollisionAt a b pathA pathB t).map Collision.swapAgents := by
  unfold detectCollisionAt
  by_cases hv : getLocation pathA t = getLocation pathB t
  · rw [if_pos hv, if_pos hv.symm]
    simp [createVertexCollision, Collision.swapAgents, hv]
  · rw [if_neg hv, if_neg (fun h => hv h.symm)]
    by_cases he : getLocation pathA t = getLocation pathB (t + 1)
        ∧ getLocation pathA (t + 1) = getLocation pathB t
    · rw [if_pos he, if_pos ⟨he.2.symm, he.1.symm⟩]
      simp [createEdgeCollision, Collision.swapAgents, he.1, he.2]
    · rw [if_neg he, if_neg (fun h => he ⟨h.2.symm, h.1.symm⟩)]
      rfl

theorem findSome?_map_option {α β γ : Type} (f : α → Option β) (g : β → γ) (l : List α) :
    l.findSome? (fun x => (f x).map g) = (l.findSome? f).map g := by
  induction l with
  | nil => rfl
  | cons x xs ih =>
    simp only [List.findSome?_cons]
    cases f x with
    | none => simpa using ih
    | some y => simp

theorem detectCollision_swap (a b : Nat) (pathA pathB : List Point2) :
    detectCollision b a pathB pathA
      = (detectCollision a b pathA pathB).map Collision.swapAgents := by
  unfold detectCollision
  rw [← findSome?_map_option, Nat.max_comm]
  congr 1
  funext t
  exact detectCollisionAt_swap a b pathA pathB t

/-- C20: `detectCollision` is symmetric in its two agents.  For non-empty paths
`A` and `B`, `detectCollision(a, b, A, B)` reports a collision exactly when
`detectCollision(b, a, B, A)` does; the two reports then have the same time
and the same kind, the agents exchanged, the same cell for a vertex collision
and mutually reversed pairs of cells for an edge collision. -/
theorem detectCollision_symmetric (a b : Nat) (pathA pathB : List Point2)
    (_ : pathA ≠ []) (_ : pathB ≠ []) :
    (detectCollision a b pathA pathB = none ↔ detectCollision b a pathB pathA = none)
    ∧ ∀ c1 c2, detectCollision a b pathA pathB = some c1 →
        detectCollision b a pathB pathA = some c2 →
        c1.t = c2.t ∧ c1.isVertexCollision = c2.isVertexCollision
        ∧ c2.agent1 = c1.agent2 ∧ c2.agent2 = c1.agent1
        ∧ (c1.isVertexCollision = true → c2.location.1 = c1.location.1)
        ∧ (c1.isVertexCollision = false →
            c2.location = (c1.location.2, c1.location.1)) := by
  rw [detectCollision_swap a b pathA pathB]
  constructor
  · cases detectCollision a b pathA pathB <;> simp
  · intro c1 c2 h1 h2
    rw [h1] at h2
    simp only [Option.map_some', Option.some.injEq] at h2
    subst h2
    refine ⟨rfl, rfl, rfl, rfl, ?_, fun _ => rfl⟩
    intro hv
    obtain ⟨t, _, hat, _⟩ := (detectCollision_eq_some_iff a b pathA pathB c1).mp h1
    unfold detectCollisionAt at hat
    split at hat
    · cases hat
      rfl
    · split at hat
      · cases hat
        simp [createEdgeCollision] at hv
      · cases hat

theorem detectCollision_symmetric_witness :
    ([⟨0, 0⟩, ⟨1, 0⟩] : List Point2) ≠ [] ∧ ([⟨1, 0⟩, ⟨0, 0⟩] : List Point2) ≠ []
    ∧ detectCollision 0 1 [⟨0, 0⟩, ⟨1, 0⟩] [⟨1, 0⟩, ⟨0, 0⟩]
        = some (createEdgeCollision 0 1 1 ⟨0, 0⟩ ⟨1, 0⟩)
    ∧ detectCollision 1 0 [⟨1, 0⟩, ⟨0, 0⟩] [⟨0, 0⟩, ⟨1, 0⟩]
        = some (createEdgeCollision 1 0 1 ⟨1, 0⟩ ⟨0, 0⟩)
    ∧ (createEdgeCollision 1 0 1 ⟨1, 0⟩ ⟨0, 0⟩).location
        = ((createEdgeCollision 0 1 1 ⟨0, 0⟩ ⟨1, 0⟩).location.2,
           (createEdgeCollision 0 1 1 ⟨0, 0⟩ ⟨1, 0⟩).location.1) :=
  ⟨by decide, by decide, by decide, by decide,
    ((detectCollision_symmetric 0 1 [⟨0, 0⟩, ⟨1, 0⟩] [⟨1, 0⟩, ⟨0, 0⟩] (by decide)
      (by decide)).2 (createEdgeCollision 0 1 1 ⟨0, 0⟩ ⟨1, 0⟩)
      (createEdgeCollision 1 0 1 ⟨1, 0⟩ ⟨0, 0⟩) (by decide) (by decide)).2.2.2.2.2 rfl⟩

/-! ## The list built by `detectCollisions` -/

theorem outerBound_of_pos {n : Nat} (h : 0 < n) : outerBound n = n - 1 := by
  unfold outerBound
  rw [if_neg (by omega)]

theorem detectCollisions_inner_mem {paths : List (List Point2)} {i : Nat} {col : Collision}
    (h : col ∈ (List.range' (i + 1) (paths.length - (i + 1))).filterMap fun j =>
      detectCollision i j (paths.getD i []) (paths.getD j [])) :
    col.agent1 = i ∧ i < col.agent2 ∧ col.agent2 < paths.length := by
  simp only [List.mem_filterMap, List.mem_range'_1] at h
  obtain ⟨j, ⟨h1, h2⟩, hdet⟩ := h
  obtain ⟨e1, e2⟩ := detectCollision_agents hdet
  omega

theorem detectCollisions_pairwise (paths : List (List Point2)) :
    (detectCollisions paths).Pairwise Collision.pairBefore := by
  unfold detectCollisions
  rw [List.pairwise_flatMap]
  constructor
  · intro i _
    rw [List.pairwise_filterMap]
    refine (List.pairwise_lt_range' (i + 1) (paths.length - (i + 1))).imp ?_
    intro j k hjk c hc d hd
    obtain ⟨c1, c2⟩ := detectCollision_agents (Option.mem_def.mp hc)
    obtain ⟨d1, d2⟩ := detectCollision_agents (Option.mem_def.mp hd)
    right
    omega
  · refine (List.pairwise_lt_range (outerBound paths.length)).imp ?_
    intro i k hik c hc d hd
    have h1 := (detectCollisions_inner_mem hc).1
    have h2 := (detectCollisions_inner_mem hd).1
    left
    omega

theorem sum_range_descending (m : Nat) :
    2 * ((List.range m).map fun i => m - i).sum = m * (m + 1) := by
  induction m with
  | zero => simp
  | succ m ih =>
    rw [List.range_succ_eq_map, List.map_cons, List.sum_cons, List.map_map]
    have : ((fun i => m + 1 - i) ∘ Nat.succ) = fun i => m - i := by
      funext i
      simp only [Function.comp_apply, Nat.succ_eq_add_one]
      omega
    rw [this]
    have e : 2 * (m + 1 - 0 + ((List.range m).map fun i => m - i).sum)
        = 2 * (m + 1) + 2 * ((List.range m).map fun i => m - i).sum := by
      omega
    rw [e, ih]
    ring

theorem detectCollisions_length_le (paths : List (List Point2)) :
    2 * (detectCollisions paths).length ≤ paths.length * (paths.length - 1) := by
  rcases Nat.eq_zero_or_pos paths.length with h0 | hpos
  · have hnil : detectCollisions paths = [] := by
      rw [detectCollisions_eq_nil_iff]
      intro i j _ hj
      omega
    rw [hnil]
    simp
  · unfold detectCollisions
    rw [outerBound_of_pos hpos, List.length_flatMap]
    have hle : ((List.range (paths.length - 1)).map fun i =>
          ((List.range' (i + 1) (paths.length - (i + 1))).filterMap fun j =>
            detectCollision i j (paths.getD i []) (paths.getD j [])).length).sum
        ≤ ((List.range (paths.length - 1)).map fun i => paths.length - 1 - i).sum := by
      apply List.sum_le_sum
      intro i _
      refine le_trans (List.length_filterMap_le _ _) ?_
      rw [List.length_range']
      omega
    have hs := sum_range_descending (paths.length - 1)
    have e : paths.length - 1 + 1 = paths.length := by omega
    rw [e] at hs
    calc 2 * _ ≤ 2 * ((List.range (paths.length - 1)).map fun i => paths.length - 1 - i).sum :=
          Nat.mul_le_mul_left 2 hle
      _ = (paths.length - 1) * paths.length := hs
      _ = paths.length * (paths.length - 1) := Nat.mul_comm _ _

/-- C17: for two or more non-empty paths, `detectCollisions` returns a list that
depends on `paths` only; a collision is in it exactly when it is the report of
`detectCollision(i, j, paths[i], paths[j])` for a pair `i < j` of agents; the
entries have `agent1 < agent2` and come in strictly increasing order of
`(agent1, agent2)`, so there is at most one per pair, and there are at most
`n (n - 1) / 2` of them. -/
theorem detectCollisions_spec (paths : List (List Point2)) (_ : 2 ≤ paths.length)
    (_ : ∀ p, p ∈ paths → p ≠ []) :
    (∀ col, col ∈ detectCollisions paths
        ↔ ∃ i j, i < j ∧ j < paths.length
            ∧ detectCollision i j (paths.getD i []) (paths.getD j []) = some col)
    ∧ (∀ col, col ∈ detectCollisions paths →
        col.agent1 < col.agent2 ∧ col.agent2 < paths.length)
    ∧ (detectCollisions paths).Pairwise
        (fun c d => c.agent1 < d.agent1 ∨ (c.agent1 = d.agent1 ∧ c.agent2 < d.agent2))
    ∧ (detectCollisions paths).length ≤ paths.length * (paths.length - 1) / 2 := by
  refine ⟨mem_detectCollisions paths, ?_, detectCollisions_pairwise paths, ?_⟩
  · intro col hcol
    obtain ⟨i, j, hij, hj, hdet⟩ := (mem_detectCollisions paths col).mp hcol
    obtain ⟨e1, e2⟩ := detectCollision_agents hdet
    omega
  · have := detectCollisions_length_le paths
    omega

theorem detectCollisions_spec_witness :
    2 ≤ crossRoot.paths.length
    ∧ (detectCollisions crossRoot.paths).length
        ≤ crossRoot.paths.length * (crossRoot.paths.length - 1) / 2
    ∧ detectCollisions crossRoot.paths = crossRoot.collisionList :=
  ⟨by decide,
    (detectCollisions_spec crossRoot.paths (by decide) (by decide)).2.2.2, by decide⟩

/-- C18, the code at its inputs of fewer than two paths.  For one path the outer
loop bound `paths.size() - 1` is `0`, the loop body is never entered and the
list is empty.  For no path the bound wraps around to `2^64 - 1`, so the loop
test `i < paths.size() - 1` holds at `i = 0` and the outer loop does iterate;
its inner loop is empty every time, and the list stays empty. -/
theorem detectCollisions_few_paths :
    outerBound ([] : List (List Point2)).length = 2 ^ 64 - 1
    ∧ 0 < outerBound ([] : List (List Point2)).length
    ∧ (∀ i, List.range' (i + 1) (([] : List (List Point2)).length - (i + 1)) = [])
    ∧ detectCollisions [] = []
    ∧ (∀ p : List Point2, outerBound [p].length = 0 ∧ detectCollisions [p] = []) := by
  refine ⟨rfl, by decide, fun i => by simp, ?_, fun p => ⟨rfl, ?_⟩⟩
  · rw [detectCollisions_eq_nil_iff]
    intro i j _ hj
    simp at hj
  · rw [detectCollisions_eq_nil_iff]
    intro i j hij hj
    simp only [List.length_singleton] at hj
    omega

/-! ## Cost and id of the nodes pushed -/

/-- C14, the code on the crossing instance and on the one-agent instance: the
root node is pushed with cost `0` although its paths have 6 cells in all
(the children have the cost `computeCost` of their paths), and on the
one-agent instance `safeSolve` returns the root, with cost `0` for a path of 2
cells. -/
theorem root_cost_is_zero :
    safeSolve crossLL crossInstance 0 3 = some crossRun
    ∧ crossRun.trace.filterMap Event.pushed? = [crossRoot, crossChild0, crossChild1]
    ∧ crossRoot.cost = 0 ∧ computeCost crossRoot.paths = 6
    ∧ crossChild0.cost = computeCost crossChild0.paths
    ∧ crossChild1.cost = computeCost crossChild1.paths
    ∧ (safeSolve soloLL soloInstance 0 1).map (fun run => run.result) = some (some soloRoot)
    ∧ soloRoot.cost = 0 ∧ computeCost soloRoot.paths = 2 := by
  refine ⟨rfl, rfl, rfl, rfl, rfl, rfl, rfl, rfl, rfl⟩

/-- C15, the code on the crossing instance: the three nodes created, the root
and its two children, all have id `0`; after the root is popped the two
children are on the frontier together with the same id. -/
theorem node_ids_all_zero :
    safeSolve crossLL crossInstance 0 3 = some crossRun
    ∧ crossRun.trace.filterMap Event.pushed? = [crossRoot, crossChild0, crossChild1]
    ∧ (crossRun.trace.filterMap Event.pushed?).map CTNode.id = [0, 0, 0]
    ∧ (solveExpand crossLL crossRoot (resolveCollision
          { agent1 := 0, agent2 := 1, t := 1, isVertexCollision := true,
            location := (⟨1, 1⟩, ⟨1, 1⟩) }) [] []).1 = [crossChild0, crossChild1]
    ∧ crossChild0.id = crossChild1.id
    ∧ (∀ cur c path, (childNode cur c path).id = 0) := by
  refine ⟨rfl, rfl, rfl, rfl, rfl, fun _ _ _ => rfl⟩

/-! ## One expansion step -/

theorem solveChild_eq (ll : LowLevel) (cur : CTNode) (c : Constraint) (pq : List CTNode)
    (tr : List Event) :
    solveChild ll cur c pq tr = (pq ++ childrenOf ll cur [c], tr ++ childEvents ll cur c) := by
  unfold childrenOf childEvents
  cases h : ll c.agentNum (cur.constraintList ++ [c]) with
  | none => rw [solveChild_none h]; simp [h]
  | some path => rw [solveChild_some h]; simp [h, pqPush, childNode]

theorem solveExpand_eq (ll : LowLevel) (cur : CTNode) (cs : List Constraint)
    (pq : List CTNode) (tr : List Event) :
    solveExpand ll cur cs pq tr
      = (pq ++ childrenOf ll cur cs, tr ++ cs.flatMap (childEvents ll cur)) := by
  induction cs generalizing pq tr with
  | nil => simp [solveExpand, childrenOf]
  | cons c cs ih =>
    unfold solveExpand
    rw [solveChild_eq, ih]
    simp only [childrenOf, List.append_assoc, List.flatMap_cons, List.filterMap_cons]
    cases ll c.agentNum (cur.constraintList ++ [c]) <;> simp

theorem resolveCollision_eq (col : Collision) :
    resolveCollision col = [constraintFor col col.agent1, constraintFor col col.agent2] := by
  unfold resolveCollision constraintFor
  split
  · next h => simp [h]
  · next h =>
    have h2 : col.isVertexCollision = false := by simpa using h
    simp [h2]

theorem childNode_frame (cur : CTNode) (c : Constraint) (path : List Point2) :
    (childNode cur c path).constraintList = cur.constraintList ++ [c]
    ∧ (childNode cur c path).paths.length = cur.paths.length
    ∧ (∀ k, k ≠ c.agentNum → (childNode cur c path).paths.getD k [] = cur.paths.getD k [])
    ∧ (c.agentNum < cur.paths.length →
        (childNode cur c path).paths.getD c.agentNum [] = path) := by
  refine ⟨rfl, by simp [childNode], ?_, ?_⟩
  · intro k hk
    simp only [childNode]
    rw [List.getD_eq_getElem?_getD, List.getD_eq_getElem?_getD,
      List.getElem?_set_ne (Ne.symm hk)]
  · intro hlt
    simp only [childNode]
    rw [List.getD_eq_getElem?_getD, List.getElem?_set_self hlt]
    rfl

/-- C16: one expansion step.  When the node `cur` popped from the frontier `pq`
has the collision `col` at index 0, `col` is resolved into the two constraints
`c1 = constraintFor col col.agent1` and `c2 = constraintFor col col.agent2`,
and the loops of `solve` and `safeSolve` go on with the frontier `pq` without
`cur` followed by those of the two children whose replan succeeded, in this
order (`safeSolve` with the counter raised by 2).  The child for `c` has the
constraints of `cur` with `c` appended at the end, as many paths as `cur`, the
path of `cur` for every agent other than `c.agentNum`, and the replanned path
for `c.agentNum`. -/
theorem expansion_step (ll : LowLevel) (fuel : Nat) (pq : List CTNode) (counter : Int)
    (tr : List Event) (cur : CTNode) (rest : List CTNode) (col : Collision)
    (cols : List Collision) (hpop : pqPop pq = some (cur, rest))
    (hcl : cur.collisionList = col :: cols) :
    resolveCollision col = [constraintFor col col.agent1, constraintFor col col.agent2]
    ∧ cur ∈ pq ∧ rest = pq.erase cur
    ∧ solveLoop ll (fuel + 1) pq tr
        = solveLoop ll fuel
            (rest ++ childrenOf ll cur
              [constraintFor col col.agent1, constraintFor col col.agent2])
            (tr ++ [Event.pop cur]
              ++ (childEvents ll cur (constraintFor col col.agent1)
                  ++ childEvents ll cur (constraintFor col col.agent2)))
    ∧ safeSolveLoop ll (fuel + 1) pq counter tr
        = safeSolveLoop ll fuel
            (rest ++ childrenOf ll cur
              [constraintFor col col.agent1, constraintFor col col.agent2])
            (counter + 2)
            (tr ++ [Event.pop cur]
              ++ (childEvents ll cur (constraintFor col col.agent1)
                  ++ childEvents ll cur (constraintFor col col.agent2)))
    ∧ (∀ cs, childrenOf ll cur cs
        = cs.filterMap (fun c =>
            (ll c.agentNum (cur.constraintList ++ [c])).map (childNode cur c)))
    ∧ ∀ c path,
        (childNode cur c path).constraintList = cur.constraintList ++ [c]
        ∧ (childNode cur c path).paths.length = cur.paths.length
        ∧ (∀ k, k ≠ c.agentNum →
            (childNode cur c path).paths.getD k [] = cur.paths.getD k [])
        ∧ (c.agentNum < cur.paths.length →
            (childNode cur c path).paths.getD c.agentNum [] = path) := by
  have hres := resolveCollision_eq col
  obtain ⟨hmem, hrest, _, _⟩ := pqPop_some hpop
  refine ⟨hres, hmem, hrest, ?_, ?_, fun _ => rfl, childNode_frame cur⟩
  · conv_lhs => unfold solveLoop
    simp only [hpop, hcl, hres]
    rw [solveExpand_eq]
    simp
  · conv_lhs => unfold safeSolveLoop
    simp only [hpop, hcl, hres]
    obtain ⟨e1, e2, e3⟩ := safeSolveExpand_eq ll cur
      [constraintFor col col.agent1, constraintFor col col.agent2] rest counter
      (tr ++ [Event.pop cur])
    rw [e1, e2, e3, solveExpand_eq]
    simp only [List.length_cons, List.length_nil, List.flatMap_cons, List.flatMap_nil,
      List.append_nil]
    rfl

theorem expansion_step_witness :
    pqPop [crossRoot] = some (crossRoot, [])
    ∧ crossRoot.collisionList = [⟨0, 1, 1, true, (⟨1, 1⟩, ⟨1, 1⟩)⟩]
    ∧ childrenOf crossLL crossRoot
        [constraintFor ⟨0, 1, 1, true, (⟨1, 1⟩, ⟨1, 1⟩)⟩ 0,
         constraintFor ⟨0, 1, 1, true, (⟨1, 1⟩, ⟨1, 1⟩)⟩ 1]
        = [crossChild0, crossChild1]
    ∧ safeSolveLoop crossLL (2 + 1) [crossRoot] 0 []
        = safeSolveLoop crossLL 2
            ([] ++ childrenOf crossLL crossRoot
              [constraintFor ⟨0, 1, 1, true, (⟨1, 1⟩, ⟨1, 1⟩)⟩ 0,
               constraintFor ⟨0, 1, 1, true, (⟨1, 1⟩, ⟨1, 1⟩)⟩ 1])
            (0 + 2)
            ([] ++ [Event.pop crossRoot]
              ++ (childEvents crossLL crossRoot
                    (constraintFor ⟨0, 1, 1, true, (⟨1, 1⟩, ⟨1, 1⟩)⟩ 0)
                  ++ childEvents crossLL crossRoot
                    (constraintFor ⟨0, 1, 1, true, (⟨1, 1⟩, ⟨1, 1⟩)⟩ 1))) :=
  ⟨rfl, rfl, rfl,
    (expansion_step crossLL 2 [crossRoot] 0 [] crossRoot []
      ⟨0, 1, 1, true, (⟨1, 1⟩, ⟨1, 1⟩)⟩ [] rfl rfl).2.2.2.2.1⟩

/-! ## The counter and the root -/

theorem planRoot_eq_none (ll : LowLevel) (agents : List Nat) (paths : List (List Point2))
    (tr : List Event) (h : (planRoot ll agents paths tr).1 = none) :
    ∃ i, i ∈ agents ∧ ll i [] = none := by
  induction agents generalizing paths tr with
  | nil => simp [planRoot] at h
  | cons j rest ih =>
    unfold planRoot at h
    cases hj : ll j [] with
    | none => exact ⟨j, List.mem_cons_self _ _, hj⟩
    | some path =>
      rw [hj] at h
      obtain ⟨i, hi, hll⟩ := ih _ _ h
      exact ⟨i, List.mem_cons_of_mem _ hi, hll⟩

theorem rootNode_eq_none_iff (ll : LowLevel) (inst : MAPFInstance) :
    rootNode ll inst = none ↔ ∃ i, i < inst.startLocs.length ∧ ll i [] = none := by
  unfold rootNode
  constructor
  · intro h
    split at h
    · next hp =>
      obtain ⟨i, hi, hll⟩ := planRoot_eq_none ll _ _ _ hp
      exact ⟨i, List.mem_range.mp hi, hll⟩
    · cases h
  · rintro ⟨i, hi, hll⟩
    rw [planRoot_fails ll _ _ _ ⟨i, List.mem_range.mpr hi, hll⟩]

theorem rootNode_paths_nonempty (ll : LowLevel) (inst : MAPFInstance)
    (hinst : inst.startLocs.length = inst.numAgents)
    (hll : ∀ a cs p, ll a cs = some p → p ≠ []) (root : CTNode)
    (h : rootNode ll inst = some root) :
    root.paths.length = inst.numAgents ∧ (∀ p, p ∈ root.paths → p ≠ [])
    ∧ root.collisionList = detectCollisions root.paths := by
  unfold rootNode at h
  split at h
  · cases h
  · next paths hp =>
    cases h
    have hpp := planRoot_paths ll _ _ [] paths hp
    rw [List.length_replicate] at hpp
    obtain ⟨hlen, hk⟩ := hpp
    refine ⟨hlen, ?_, rfl⟩
    intro p hp
    simp only at hp
    obtain ⟨k, hkl, hkp⟩ := List.getElem_of_mem hp
    have hk2 := (hk k (by omega)).1 (List.mem_range.mpr (by omega))
    rw [List.getD_eq_getElem _ _ hkl, hkp] at hk2
    exact hll _ _ _ hk2

theorem detectCollisions_nil_of_collisionFree {paths : List (List Point2)}
    (h : CollisionFree paths) : detectCollisions paths = [] := by
  rw [detectCollisions_eq_nil_iff]
  intro i j hij hj
  rw [detectCollision_eq_none_iff]
  intro t _
  exact h i j (by omega) hj (by omega) t

theorem safeSolveLoop_counter_le (ll : LowLevel) (fuel : Nat) (pq : List CTNode)
    (counter : Int) (tr : List Event) (run : SafeSolveRun)
    (h : safeSolveLoop ll fuel pq counter tr = some run) : counter ≤ run.counter := by
  induction fuel generalizing pq counter tr with
  | zero => simp [safeSolveLoop] at h
  | succ fuel ih =>
    unfold safeSolveLoop at h
    cases hpop : pqPop pq with
    | none =>
      rw [hpop] at h
      cases h
      exact le_refl _
    | some p =>
      obtain ⟨cur, rest⟩ := p
      rw [hpop] at h
      simp only at h
      cases hcl : cur.collisionList with
      | nil =>
        rw [hcl] at h
        cases h
        exact le_refl _
      | cons col cols =>
        rw [hcl] at h
        simp only at h
        have := ih _ _ _ h
        rw [(safeSolveExpand_counts ll cur (resolveCollision col) rest counter
          (tr ++ [Event.pop cur])).1] at this
        omega

/-- C11, as the code has it: in a terminating run of `safeSolve` started with
counter 0 (instance with `numAgents` start cells, low-level paths non-empty),
the final counter is zero exactly when the low-level solver fails for some
agent at the root, so that no root node is built, or the root node is
collision-free. -/
theorem safeSolve_counter_zero_iff (ll : LowLevel) (inst : MAPFInstance)
    (hinst : inst.startLocs.length = inst.numAgents)
    (hll : ∀ a cs p, ll a cs = some p → p ≠ []) (fuel : Nat) (run : SafeSolveRun)
    (h : safeSolve ll inst 0 fuel = some run) :
    run.counter = 0
      ↔ ((∃ i, i < inst.startLocs.length ∧ ll i [] = none)
          ∨ ∃ root, rootNode ll inst = some root ∧ CollisionFree root.paths) := by
  cases hroot : rootNode ll inst with
  | none =>
    have hfail := (rootNode_eq_none_iff ll inst).mp hroot
    have hrun : run.counter = 0 := by
      unfold rootNode at hroot
      unfold safeSolve at h
      split at h
      · cases h; rfl
      · next paths tr heq =>
        rw [heq] at hroot
        cases hroot
    simp [hrun, hfail]
  | some root =>
    have hnofail : ¬ ∃ i, i < inst.startLocs.length ∧ ll i [] = none := by
      rw [← rootNode_eq_none_iff, hroot]
      simp
    obtain ⟨_, hne, hcl⟩ := rootNode_paths_nonempty ll inst hinst hll root hroot
    have hfree : CollisionFree root.paths ↔ root.collisionList = [] := by
      rw [hcl]
      exact ⟨detectCollisions_nil_of_collisionFree,
        collisionFree_of_detectCollisions_nil hne⟩
    simp only [hnofail, false_or, Option.some.injEq, exists_eq_left', hfree]
    unfold rootNode at hroot
    unfold safeSolve at h
    split at h
    · next tr heq =>
      rw [heq] at hroot
      cases hroot
    · next paths tr heq =>
      rw [heq] at hroot
      simp only [Option.some.injEq] at hroot
      rw [hroot] at h
      cases fuel with
      | zero => simp [safeSolveLoop] at h
      | succ fuel =>
        have hpop : pqPop (pqPush [] root) = some (root, []) := by
          simp [pqPop, pqPush, pqTop, pqTopFrom]
        unfold safeSolveLoop at h
        rw [hpop] at h
        simp only at h
        cases hc : root.collisionList with
        | nil =>
          rw [hc] at h
          cases h
          simp
        | cons col cols =>
          rw [hc] at h
          simp only at h
          have hle := safeSolveLoop_counter_le ll _ _ _ _ run h
          rw [(safeSolveExpand_counts ll root (resolveCollision col) [] 0 _).1,
            resolveCollision_length] at hle
          constructor
          · intro h0
            rw [h0] at hle
            norm_num at hle
          · intro hnil
            cases hnil

theorem safeSolve_counter_zero_iff_witness :
    crossInstance.startLocs.length = crossInstance.numAgents
    ∧ safeSolve crossLL crossInstance 0 3 = some crossRun
    ∧ rootNode crossLL crossInstance = some crossRoot
    ∧ crossRun.counter = 2
    ∧ (crossRun.counter = 0
        ↔ ((∃ i, i < crossInstance.startLocs.length ∧ crossLL i [] = none)
            ∨ ∃ root, rootNode crossLL crossInstance = some root
                ∧ CollisionFree root.paths)) :=
  ⟨rfl, rfl, rfl, rfl,
    safeSolve_counter_zero_iff crossLL crossInstance rfl crossLL_nonempty 3 crossRun rfl⟩

/-- C11 as stated fails: when the low-level solver finds no path for the one
agent of the one-agent instance, `safeSolve` started with counter 0 ends with
counter 0, yet there is no root node, and so no collision-free root node. -/
theorem counter_zero_without_root :
    safeSolve (fun _ _ => none) soloInstance 0 4
        = some ⟨none, 0, [Event.rootPlan 0 false]⟩
    ∧ rootNode (fun _ _ => none) soloInstance = none
    ∧ ¬ ∃ root, rootNode (fun _ _ => none) soloInstance = some root
          ∧ CollisionFree root.paths := by
  refine ⟨rfl, rfl, ?_⟩
  rintro ⟨root, h, _⟩
  cases h

/-! ## The nodes of a run are nodes of the constraint tree -/

theorem childEvents_node {ll : LowLevel} {cur : CTNode} {c : Constraint} {n : CTNode}
    (h : Event.pop n ∈ childEvents ll cur c ∨ Event.push n ∈ childEvents ll cur c) :
    ∃ path, ll c.agentNum (cur.constraintList ++ [c]) = some path ∧ n = childNode cur c path := by
  unfold childEvents at h
  cases hl : ll c.agentNum (cur.constraintList ++ [c]) with
  | none =>
    rw [hl] at h
    simp at h
  | some path =>
    rw [hl] at h
    simp only [List.mem_cons, reduceCtorEq, Event.push.injEq, List.mem_singleton,
      List.not_mem_nil, or_false, false_or] at h
    exact ⟨path, rfl, h⟩

theorem safeSolveLoop_trace_inv (ll : LowLevel) (Inv : CTNode → Prop)
    (hchild : ∀ cur col cols c path, Inv cur → cur.collisionList = col :: cols →
      c ∈ resolveCollision col → ll c.agentNum (cur.constraintList ++ [c]) = some path →
      Inv (childNode cur c path))
    (fuel : Nat) (pq : List CTNode) (counter : Int) (tr : List Event) (run : SafeSolveRun)
    (hpq : ∀ n, n ∈ pq → Inv n)
    (htr : ∀ n, Event.pop n ∈ tr ∨ Event.push n ∈ tr → Inv n)
    (h : safeSolveLoop ll fuel pq counter tr = some run) :
    ∀ n, Event.pop n ∈ run.trace ∨ Event.push n ∈ run.trace → Inv n := by
  induction fuel generalizing pq counter tr with
  | zero => simp [safeSolveLoop] at h
  | succ fuel ih =>
    unfold safeSolveLoop at h
    cases hpop : pqPop pq with
    | none =>
      rw [hpop] at h
      cases h
      exact htr
    | some p =>
      obtain ⟨cur, rest⟩ := p
      rw [hpop] at h
      simp only at h
      obtain ⟨hmem, _, _, _⟩ := pqPop_some hpop
      have htr2 : ∀ n, Event.pop n ∈ tr ++ [Event.pop cur]
          ∨ Event.push n ∈ tr ++ [Event.pop cur] → Inv n := by
        intro n hn
        simp only [List.mem_append, List.mem_singleton, Event.pop.injEq, reduceCtorEq,
          or_false] at hn
        rcases hn with (hn | hn) | hn
        · exact htr n (Or.inl hn)
        · subst hn; exact hpq _ hmem
        · exact htr n (Or.inr hn)
      cases hcl : cur.collisionList with
      | nil =>
        rw [hcl] at h
        cases h
        exact htr2
      | cons col cols =>
        rw [hcl] at h
        simp only at h
        obtain ⟨e1, _, e3⟩ := safeSolveExpand_eq ll cur (resolveCollision col) rest counter
          (tr ++ [Event.pop cur])
        refine ih _ _ _ ?_ ?_ h
        · rw [e1]
          apply solveExpand_inv ll Inv cur
          · intro c hc path hpath
            exact hchild cur col cols c path (hpq _ hmem) hcl hc hpath
          · intro n hn
            exact hpq n (pqPop_rest_subset hpop n hn)
        · rw [e3, solveExpand_eq]
          intro n hn
          simp only [List.mem_append, List.mem_flatMap] at hn
          have hsplit : (Event.pop n ∈ tr ++ [Event.pop cur]
              ∨ Event.push n ∈ tr ++ [Event.pop cur])
              ∨ ∃ c, c ∈ resolveCollision col
                  ∧ (Event.pop n ∈ childEvents ll cur c
                      ∨ Event.push n ∈ childEvents ll cur c) := by
            rcases hn with (hn | ⟨c, hc, hn⟩) | (hn | ⟨c, hc, hn⟩)
            · exact Or.inl (Or.inl (List.mem_append.mpr hn))
            · exact Or.inr ⟨c, hc, Or.inl hn⟩
            · exact Or.inl (Or.inr (List.mem_append.mpr hn))
            · exact Or.inr ⟨c, hc, Or.inr hn⟩
          rcases hsplit with hold | ⟨c, hc, hn⟩
          · exact htr2 n hold
          · obtain ⟨path, hpath, hnode⟩ := childEvents_node hn
            subst hnode
            exact hchild cur col cols c path (hpq _ hmem) hcl hc hpath

theorem safeSolve_trace_inTree (ll : LowLevel) (inst : MAPFInstance) (counter : Int)
    (fuel : Nat) (run : SafeSolveRun) (h : safeSolve ll inst counter fuel = some run) :
    ∀ n, Event.pop n ∈ run.trace ∨ Event.push n ∈ run.trace → InTree ll inst n := by
  unfold safeSolve at h
  obtain ⟨evs, hevs, hall⟩ := planRoot_trace ll (List.range inst.startLocs.length)
    (List.replicate inst.numAgents []) []
  split at h
  · next tr heq =>
    cases h
    rw [heq] at hevs
    simp only [List.nil_append] at hevs
    intro n hn
    rcases hn with hn | hn
    · have := hall _ (hevs ▸ hn)
      cases this
    · have := hall _ (hevs ▸ hn)
      cases this
  · next paths tr heq =>
    have hroot : InTree ll inst
        { cost := 0, paths := paths, collisionList := detectCollisions paths,
          constraintList := [], id := 0 } := by
      apply InTree.root
      unfold rootNode
      rw [heq]
    rw [heq] at hevs
    simp only [List.nil_append] at hevs
    refine safeSolveLoop_trace_inv ll (InTree ll inst)
      (fun cur col cols c path hcur hcl hc hpath => InTree.child hcur hcl hc hpath)
      fuel _ counter _ run ?_ ?_ h
    · intro n hn
      simp only [pqPush, List.nil_append, List.mem_singleton] at hn
      subst hn
      exact hroot
    · intro n hn
      simp only [List.mem_append, List.mem_singleton, reduceCtorEq, or_false,
        Event.push.injEq] at hn
      rcases hn with hn | hn | hn
      · have := hall _ (hevs ▸ hn)
        cases this
      · have := hall _ (hevs ▸ hn)
        cases this
      · subst hn
        exact hroot

/-! ## Costs along a branch -/

theorem foldl_add_length (paths : List (List Point2)) (acc : Nat) :
    paths.foldl (fun result p => result + p.length) acc
      = acc + (paths.map List.length).sum := by
  induction paths generalizing acc with
  | nil => simp
  | cons p ps ih =>
    simp only [List.foldl_cons, List.map_cons, List.sum_cons]
    rw [ih]
    omega

theorem computeCost_eq_sum (paths : List (List Point2)) :
    computeCost paths = (paths.map List.length).sum := by
  unfold computeCost
  rw [foldl_add_length]
  omega

theorem computeCost_set (paths : List (List Point2)) (k : Nat) (p : List Point2)
    (hk : k < paths.length) :
    computeCost (paths.set k p) + (paths.getD k []).length = computeCost paths + p.length := by
  simp only [computeCost_eq_sum]
  induction paths generalizing k with
  | nil => simp at hk
  | cons q qs ih =>
    cases k with
    | zero =>
      simp only [List.set_cons_zero, List.map_cons, List.sum_cons, List.getD_cons_zero]
      omega
    | succ k =>
      simp only [List.set_cons_succ, List.map_cons, List.sum_cons, List.getD_cons_succ]
      have := ih k (by simpa using hk)
      omega

theorem computeCost_set_of_le (paths : List (List Point2)) (k : Nat) (p : List Point2)
    (h : k < paths.length → (paths.getD k []).length ≤ p.length) :
    computeCost paths ≤ computeCost (paths.set k p) := by
  by_cases hk : k < paths.length
  · have := computeCost_set paths k p hk
    have := h hk
    omega
  · rw [List.set_eq_of_length_le (by omega)]

/-- Every path of a node of the constraint tree is still unplanned, or is the
answer of the low-level solver to constraints of the node; and the cost of the
node is at most the sum of its path lengths. -/
theorem InTree_paths (ll : LowLevel) (inst : MAPFInstance) (n : CTNode)
    (h : InTree ll inst n) :
    n.cost ≤ computeCost n.paths
    ∧ ∀ k, k < n.paths.length →
        n.paths.getD k [] = []
        ∨ ∃ cs, (∀ c, c ∈ cs → c ∈ n.constraintList) ∧ ll k cs = some (n.paths.getD k []) := by
  induction h with
  | @root r hr =>
    unfold rootNode at hr
    split at hr
    · cases hr
    · next paths hp =>
      cases hr
      refine ⟨Nat.zero_le _, ?_⟩
      intro k hk
      simp only at hk ⊢
      obtain ⟨hlen, hkk⟩ := planRoot_paths ll _ _ [] paths hp
      by_cases hmem : k ∈ List.range inst.startLocs.length
      · exact Or.inr ⟨[], ⟨fun c hc => absurd hc (List.not_mem_nil c),
          (hkk k (by omega)).1 hmem⟩⟩
      · left
        rw [(hkk k (by omega)).2 hmem]
        simp [List.getD_eq_getElem?_getD]
  | @child cur col cols c path _ _ _ hpath ih =>
    refine ⟨le_refl _, ?_⟩
    intro k hk
    simp only [childNode, List.length_set] at hk ⊢
    by_cases hkc : k = c.agentNum
    · subst hkc
      right
      refine ⟨cur.constraintList ++ [c], fun _ h => h, ?_⟩
      rw [List.getD_eq_getElem?_getD, List.getElem?_set_self hk]
      exact hpath
    · rw [List.getD_eq_getElem?_getD, List.getElem?_set_ne (Ne.symm hkc),
        ← List.getD_eq_getElem?_getD]
      rcases ih.2 k hk with h0 | ⟨cs, hsub, hcs⟩
      · exact Or.inl h0
      · exact Or.inr ⟨cs, fun x hx => List.mem_append_left _ (hsub x hx), hcs⟩

/-- C12: let the low-level solver return, on success, a path that is valid for
the agent and violates none of the agent's constraints in the list passed, and
that is no longer than any other such path.  Then every child that the loop
body builds from a node of the constraint tree has a cost greater than or
equal to the cost of that node; and every node that a terminating run of
`safeSolve` pops or pushes is a node of the constraint tree. -/
theorem child_cost_ge_parent (ll : LowLevel) (inst : MAPFInstance)
    (Valid : Nat → List Point2 → Prop) (Violates : List Point2 → Constraint → Prop)
    (hsound : ∀ a cs p, ll a cs = some p →
      Valid a p ∧ ∀ c, c ∈ cs → c.agentNum = a → ¬ Violates p c)
    (hmin : ∀ a cs p q, ll a cs = some p → Valid a q →
      (∀ c, c ∈ cs → c.agentNum = a → ¬ Violates q c) → p.length ≤ q.length) :
    (∀ cur col cols c path, InTree ll inst cur → cur.collisionList = col :: cols →
        c ∈ resolveCollision col → ll c.agentNum (cur.constraintList ++ [c]) = some path →
        cur.cost ≤ (childNode cur c path).cost)
    ∧ (∀ counter fuel run, safeSolve ll inst counter fuel = some run →
        ∀ n, Event.pop n ∈ run.trace ∨ Event.push n ∈ run.trace → InTree ll inst n) := by
  refine ⟨?_, fun counter fuel run h => safeSolve_trace_inTree ll inst counter fuel run h⟩
  intro cur col cols c path hcur _ _ hpath
  obtain ⟨hcost, hpaths⟩ := InTree_paths ll inst cur hcur
  refine le_trans hcost ?_
  show computeCost cur.paths ≤ computeCost (cur.paths.set c.agentNum path)
  apply computeCost_set_of_le
  intro hk
  rcases hpaths c.agentNum hk with h0 | ⟨cs, hsub, hcs⟩
  · rw [h0]
    exact Nat.zero_le _
  · obtain ⟨hvalid, hhon⟩ := hsound _ _ _ hpath
    exact hmin _ _ _ _ hcs hvalid
      (fun x hx hxa => hhon x (List.mem_append_left _ (hsub x hx)) hxa)

theorem find?_shortest {l : List (List Point2)} {pred : List Point2 → Bool}
    (hsorted : l.Pairwise (fun p q => p.length ≤ q.length)) {p q : List Point2}
    (hp : l.find? pred = some p) (hq : q ∈ l) (hpq : pred q = true) :
    p.length ≤ q.length := by
  induction l with
  | nil => cases hq
  | cons x xs ih =>
    rw [List.pairwise_cons] at hsorted
    rw [List.find?_cons] at hp
    cases hx : pred x with
    | true =>
      rw [hx] at hp
      cases hp
      simp only [List.mem_cons] at hq
      rcases hq with hq | hq
      · subst hq; exact le_refl _
      · exact hsorted.1 q hq
    | false =>
      rw [hx] at hp
      simp only [List.mem_cons] at hq
      rcases hq with hq | hq
      · subst hq
        rw [hx] at hpq
        cases hpq
      · exact ih hsorted.2 hp hq

theorem crossCandidates_sorted (agent : Nat) :
    (crossCandidates agent).Pairwise (fun p q => p.length ≤ q.length) := by
  unfold crossCandidates
  split <;> simp

theorem crossLL_shortest (a : Nat) (cs : List Constraint) (p q : List Point2)
    (hp : crossLL a cs = some p) (hq : q ∈ crossCandidates a)
    (hhon : ∀ c, c ∈ cs → c.agentNum = a → ¬ violates q c = true) :
    p.length ≤ q.length := by
  refine find?_shortest (crossCandidates_sorted a) hp hq ?_
  simp only [List.all_eq_true, Bool.or_eq_true, decide_eq_true_eq, Bool.not_eq_true']
  intro c hc
  by_cases hca : c.agentNum = a
  · right
    have := hhon c hc hca
    simpa using this
  · exact Or.inl hca

theorem child_cost_ge_parent_witness :
    rootNode crossLL crossInstance = some crossRoot
    ∧ crossRoot.collisionList = [⟨0, 1, 1, true, (⟨1, 1⟩, ⟨1, 1⟩)⟩]
    ∧ crossLL 0 (crossRoot.constraintList ++ [⟨0, 1, true, (⟨1, 1⟩, ⟨1, 1⟩)⟩])
        = some [⟨0, 1⟩, ⟨0, 1⟩, ⟨1, 1⟩, ⟨2, 1⟩]
    ∧ childNode crossRoot ⟨0, 1, true, (⟨1, 1⟩, ⟨1, 1⟩)⟩ [⟨0, 1⟩, ⟨0, 1⟩, ⟨1, 1⟩, ⟨2, 1⟩]
        = crossChild0
    ∧ crossRoot.cost
        ≤ (childNode crossRoot ⟨0, 1, true, (⟨1, 1⟩, ⟨1, 1⟩)⟩
            [⟨0, 1⟩, ⟨0, 1⟩, ⟨1, 1⟩, ⟨2, 1⟩]).cost :=
  ⟨rfl, rfl, rfl, rfl,
    (child_cost_ge_parent crossLL crossInstance (fun a p => p ∈ crossCandidates a)
      (fun p c => violates p c = true)
      (fun a cs p h => ⟨crossLL_mem h, crossLL_contract a cs p h⟩)
      (fun a cs p q hp hq hhon => crossLL_shortest a cs p q hp hq hhon)).1
      crossRoot ⟨0, 1, 1, true, (⟨1, 1⟩, ⟨1, 1⟩)⟩ [] ⟨0, 1, true, (⟨1, 1⟩, ⟨1, 1⟩)⟩
      [⟨0, 1⟩, ⟨0, 1⟩, ⟨1, 1⟩, ⟨2, 1⟩] (InTree.root rfl) rfl (by decide) rfl⟩

/-! ## The corridor instance has no solution -/

theorem holdAtGoal_mem {path : List Point2} (h : path ≠ []) (t : Nat) :
    holdAtGoal path t ∈ path := by
  have hl : 0 < path.length := List.length_pos.mpr h
  unfold holdAtGoal
  have hlt : min t (path.length - 1) < path.length :=
    lt_of_le_of_lt (Nat.min_le_right _ _) (by omega)
  rw [List.getD_eq_getElem _ _ hlt]
  exact List.getElem_mem hlt

theorem holdAtGoal_zero {path : List Point2} {p : Point2} (h : path.head? = some p) :
    holdAtGoal path 0 = p := by
  cases path with
  | nil => cases h
  | cons x xs =>
    simp only [List.head?_cons, Option.some.injEq] at h
    subst h
    simp [holdAtGoal]

theorem holdAtGoal_last {path : List Point2} {p : Point2} (h : path.getLast? = some p)
    {t : Nat} (ht : path.length - 1 ≤ t) : holdAtGoal path t = p := by
  rw [holdAtGoal_of_le path ht]
  unfold holdAtGoal
  rw [Nat.min_self, List.getD_eq_getElem?_getD, ← List.getLast?_eq_getElem?, h]
  rfl

theorem holdAtGoal_step {path : List Point2} (h : path.Chain' isStep) (t : Nat) :
    isStep (holdAtGoal path t) (holdAtGoal path (t + 1)) := by
  by_cases ht : t < path.length - 1
  · have := List.chain'_iff_get.mp h t ht
    unfold holdAtGoal
    rw [Nat.min_eq_left (by omega), Nat.min_eq_left (by omega),
      List.getD_eq_getElem _ _ (by omega), List.getD_eq_getElem _ _ (by omega)]
    simpa using this
  · rw [holdAtGoal_of_le path (by omega : path.length - 1 ≤ t),
      holdAtGoal_of_le path (by omega : path.length - 1 ≤ t + 1)]
    exact Or.inl rfl

/-- The track of a valid path of the corridor: at every time the agent is in a
cell `(0, y)` with `0 ≤ y ≤ 2`, and `y` changes by at most one per step. -/
theorem corridor_track {agent : Nat} {path : List Point2}
    (h : ValidPath corridorInstance agent path) :
    (∀ t, (holdAtGoal path t).x = 0 ∧ 0 ≤ (holdAtGoal path t).y
        ∧ (holdAtGoal path t).y ≤ 2)
    ∧ (∀ t, (holdAtGoal path (t + 1)).y ≤ (holdAtGoal path t).y + 1
        ∧ (holdAtGoal path t).y ≤ (holdAtGoal path (t + 1)).y + 1) := by
  obtain ⟨hne, _, _, hgrid, hchain⟩ := h
  constructor
  · intro t
    have := hgrid _ (holdAtGoal_mem hne t)
    unfold inGrid corridorInstance at this
    simp only [Nat.cast_one, Nat.cast_ofNat] at this
    omega
  · intro t
    have := holdAtGoal_step hchain t
    unfold isStep at this
    rcases this with h | h | h
    · rw [h]; omega
    · omega
    · omega

theorem Point2.eq_iff (p q : Point2) : p = q ↔ p.x = q.x ∧ p.y = q.y := by
  cases p
  cases q
  simp

/-- In the corridor the two agents cannot pass each other: any valid path of
agent 0 and any valid path of agent 1 share a cell at some time or swap cells
between two consecutive times. -/
theorem corridor_paths_conflict {pathA pathB : List Point2}
    (hA : ValidPath corridorInstance 0 pathA) (hB : ValidPath corridorInstance 1 pathB) :
    ∃ t, ¬ NoConflictAt pathA pathB t := by
  by_contra hno
  have hfree : ∀ t, NoConflictAt pathA pathB t := by
    intro t
    by_contra hc
    exact hno ⟨t, hc⟩
  obtain ⟨hxA, hsA⟩ := corridor_track hA
  obtain ⟨hxB, hsB⟩ := corridor_track hB
  have hA0 : (holdAtGoal pathA 0).y = 0 := by
    rw [holdAtGoal_zero (p := ⟨0, 0⟩) hA.2.1]
  have hB0 : (holdAtGoal pathB 0).y = 2 := by
    rw [holdAtGoal_zero (p := ⟨0, 2⟩) hB.2.1]
  have hlt : ∀ t, (holdAtGoal pathA t).y < (holdAtGoal pathB t).y := by
    intro t
    induction t with
    | zero => rw [hA0, hB0]; norm_num
    | succ t ih =>
      obtain ⟨h1, h2⟩ := hfree t
      obtain ⟨h3, _⟩ := hfree (t + 1)
      rw [Ne, Point2.eq_iff] at h1 h3
      rw [Point2.eq_iff, Point2.eq_iff] at h2
      have a1 := hxA t
      have a2 := hxA (t + 1)
      have b1 := hxB t
      have b2 := hxB (t + 1)
      have sa := hsA t
      have sb := hsB t
      omega
  have hAT : (holdAtGoal pathA (pathA.length + pathB.length)).y = 2 := by
    rw [holdAtGoal_last (p := ⟨0, 2⟩) hA.2.2.1 (by omega)]
  have hBT : (holdAtGoal pathB (pathA.length + pathB.length)).y = 0 := by
    rw [holdAtGoal_last (p := ⟨0, 0⟩) hB.2.2.1 (by omega)]
  have := hlt (pathA.length + pathB.length)
  rw [hAT, hBT] at this
  norm_num at this

theorem corridor_safeSolve_none (ll : LowLevel)
    (hsound : ∀ a cs p, ll a cs = some p → ValidPath corridorInstance a p)
    (counter : Int) (fuel : Nat) (run : SafeSolveRun)
    (h : safeSolve ll corridorInstance counter fuel = some run) : run.result = none := by
  cases hres : run.result with
  | none => rfl
  | some node =>
    exfalso
    have hinv := safeSolve_inv ll corridorInstance
      (fun n => n.paths.length = 2 ∧ ValidPath corridorInstance 0 (n.paths.getD 0 [])
        ∧ ValidPath corridorInstance 1 (n.paths.getD 1 [])
        ∧ n.collisionList = detectCollisions n.paths)
      ?_ ?_ counter fuel run h node hres
    · obtain ⟨⟨hlen, hA, hB, hcl⟩, hnil, _⟩ := hinv
      rw [hcl, detectCollisions_eq_nil_iff] at hnil
      have hnone := hnil 0 1 (by omega) (by omega)
      rw [detectCollision_eq_none_iff] at hnone
      obtain ⟨t, ht⟩ := corridor_paths_conflict hA hB
      exact ht (NoConflictAt_of_lt_max hA.1 hnone t)
    · intro paths tr hplan
      have hp := planRoot_paths ll _ _ [] paths (by rw [hplan])
      obtain ⟨hlen, hk⟩ := hp
      have hlen2 : paths.length = 2 := by
        rw [hlen]
        rfl
      refine ⟨hlen2, ?_, ?_, rfl⟩
      · exact hsound _ _ _ ((hk 0 (by decide)).1 (by decide))
      · exact hsound _ _ _ ((hk 1 (by decide)).1 (by decide))
    · intro cur col cols c path hcur hcl hc hpath
      obtain ⟨hlen, hA, hB, hdet⟩ := hcur
      have hcol : col ∈ detectCollisions cur.paths := by
        rw [← hdet, hcl]
        exact List.mem_cons_self _ _
      have hlt : c.agentNum < 2 := hlen ▸ resolved_agent_lt hcol hc
      have hvalid := hsound _ _ _ hpath
      obtain ⟨_, _, hother, hself⟩ := childNode_frame cur c path
      refine ⟨by simp [childNode, hlen], ?_, ?_, rfl⟩
      · by_cases h0 : c.agentNum = 0
        · rw [h0] at hself hvalid
          rw [hself (by omega)]
          exact hvalid
        · rw [hother 0 (Ne.symm h0)]
          exact hA
      · by_cases h1 : c.agentNum = 1
        · rw [h1] at hself hvalid
          rw [hself (by omega)]
          exact hvalid
        · rw [hother 1 (Ne.symm h1)]
          exact hB

theorem corridor_solve_no_paths (ll : LowLevel)
    (hsound : ∀ a cs p, ll a cs = some p → ValidPath corridorInstance a p) (fuel : Nat) :
    solve ll corridorInstance fuel = none
      ∨ ∃ tr, solve ll corridorInstance fuel
          = some ⟨Except.error NoSolutionException.mk, tr⟩ := by
  rw [solve_eq_safeSolve ll corridorInstance 0 fuel]
  cases hs : safeSolve ll corridorInstance 0 fuel with
  | none => exact Or.inl rfl
  | some run =>
    right
    have hnone := corridor_safeSolve_none ll hsound 0 fuel run hs
    refine ⟨run.trace, ?_⟩
    simp [SafeSolveRun.toSolveRun, hnone]

theorem corridorLL_sound (bound : Nat) (a : Nat) (cs : List Constraint) (p : List Point2)
    (h : corridorLL bound a cs = some p) : ValidPath corridorInstance a p := by
  have hm : p ∈ corridorCandidates a :=
    List.mem_of_mem_filter (List.mem_of_find?_eq_some h)
  unfold corridorCandidates at hm
  split at hm
  · simp only [List.mem_cons, List.mem_singleton, List.not_mem_nil, or_false] at hm
    rcases hm with hm | hm | hm <;> subst hm <;>
      exact ⟨by simp, rfl, rfl, by simp [inGrid, corridorInstance],
        by simp [List.chain'_cons, isStep]⟩
  · simp only [List.mem_cons, List.mem_singleton, List.not_mem_nil, or_false] at hm
    rcases hm with hm | hm | hm <;> subst hm <;>
      exact ⟨by simp, rfl, rfl, by simp [inGrid, corridorInstance],
        by simp [List.chain'_cons, isStep]⟩
  · cases hm

/-- C13, as the code has it: on the 1 × 3 corridor with the two agents starting
at opposite ends and bound for each other's start, any valid path of agent 0
and any valid path of agent 1 share a cell or swap cells at some time.  With a
low-level solver whose paths are valid (they start at the agent's start, end at
its goal, and are made of waits and single cardinal moves inside the grid),
`solve` therefore returns no paths: a run either does not end within the fuel
or throws `NoSolutionException`, and `safeSolve` never returns a node. -/
theorem corridor_has_no_solution (ll : LowLevel)
    (hsound : ∀ a cs p, ll a cs = some p → ValidPath corridorInstance a p) (fuel : Nat) :
    (solve ll corridorInstance fuel = none
      ∨ ∃ tr, solve ll corridorInstance fuel
          = some ⟨Except.error NoSolutionException.mk, tr⟩)
    ∧ (∀ counter run, safeSolve ll corridorInstance counter fuel = some run →
        run.result = none)
    ∧ (∀ pathA pathB, ValidPath corridorInstance 0 pathA →
        ValidPath corridorInstance 1 pathB → ∃ t, ¬ NoConflictAt pathA pathB t) :=
  ⟨corridor_solve_no_paths ll hsound fuel,
    fun counter run h => corridor_safeSolve_none ll hsound counter fuel run h,
    fun _ _ hA hB => corridor_paths_conflict hA hB⟩

theorem corridor_has_no_solution_witness :
    (corridorLL 2 0 [] = some [⟨0, 0⟩, ⟨0, 1⟩, ⟨0, 2⟩]
      ∧ corridorLL 2 1 [] = some [⟨0, 2⟩, ⟨0, 1⟩, ⟨0, 0⟩])
    ∧ (solve (corridorLL 2) corridorInstance 3).map (fun run => run.result)
        = some (Except.error NoSolutionException.mk)
    ∧ (solve (corridorLL 2) corridorInstance 3 = none
        ∨ ∃ tr, solve (corridorLL 2) corridorInstance 3
            = some ⟨Except.error NoSolutionException.mk, tr⟩) :=
  ⟨⟨rfl, rfl⟩, rfl, (corridor_has_no_solution (corridorLL 2) (corridorLL_sound 2) 3).1⟩

/-- C13 as stated fails: with the low-level solver of the corridor that allows
one wait (three moves at most), every path returned is valid and both agents
are planned at the root, yet `solve` returns a path set for no amount of fuel;
with the time bound of two moves the run ends, after the root is expanded, with
`NoSolutionException`. -/
theorem corridor_solve_never_succeeds :
    (∀ a cs p, corridorLL 3 a cs = some p → ValidPath corridorInstance a p)
    ∧ corridorLL 3 0 [] = some [⟨0, 0⟩, ⟨0, 1⟩, ⟨0, 2⟩]
    ∧ corridorLL 3 1 [] = some [⟨0, 2⟩, ⟨0, 1⟩, ⟨0, 0⟩]
    ∧ corridorLL 3 0 [⟨0, 1, true, (⟨0, 1⟩, ⟨0, 1⟩)⟩]
        = some [⟨0, 0⟩, ⟨0, 0⟩, ⟨0, 1⟩, ⟨0, 2⟩]
    ∧ (¬ ∃ fuel P tr, solve (corridorLL 3) corridorInstance fuel = some ⟨Except.ok P, tr⟩)
    ∧ (solve (corridorLL 2) corridorInstance 3).map (fun run => run.result)
        = some (Except.error NoSolutionException.mk) := by
  refine ⟨corridorLL_sound 3, rfl, rfl, rfl, ?_, rfl⟩
  rintro ⟨fuel, P, tr, h⟩
  rcases corridor_solve_no_paths (corridorLL 3) (corridorLL_sound 3) fuel with hn | ⟨tr2, he⟩
  · rw [hn] at h
    cases h
  · rw [he] at h
    cases h

end CBS
